import Mathlib

/-!
Verification development for the AI-Wala-Jhol repository.

The repository is a React client (`src/App.tsx`) plus one serverless
endpoint (`src/api/analyze.js`).  This file gives a shallow embedding of
the response-normalization and history-aggregation pipeline:

* a JavaScript/JSON value model (`JVal`) with JS truthiness, `typeof`,
  property access (reads on `null`/`undefined` throw, strict-mode writes
  on primitives throw), and `Array.isArray`;
* executable models of the platform builtins `JSON.parse` /
  `JSON.stringify` (integer numerals, the common escape sequences; no
  `\u` escapes and no fractional numbers);
* the gateway handler of `src/api/analyze.js` (prompt selection, the
  code-fence stripping, the parse-failure defaults, the field-by-field
  post-processing, the catch-all error path), parameterised by the
  external model call;
* the client-side pieces of `src/App.tsx`: the defaulting block of
  `handleAnalyze`, the surrounding state machine, `handleHumanize`,
  the history load/save effects and `typeDistributionStats`.

Theorems about the individual claims follow the definitions.
-/

/-- Model of a JavaScript runtime value as it can appear in this code
base: the JSON constructors plus `undefined`, with arrays carrying an
extra association list for non-index properties that plain JS
assignment can attach to an array object. -/
inductive JVal where
  | undef : JVal
  | jnull : JVal
  | bool : Bool → JVal
  | num : Int → JVal
  | str : String → JVal
  | arr : List JVal → List (String × JVal) → JVal
  | obj : List (String × JVal) → JVal

/-- JS truthiness: `undefined`, `null`, `false`, `0` and `""` are falsy. -/
def truthy : JVal → Bool
  | .undef => false
  | .jnull => false
  | .bool b => b
  | .num n => n != 0
  | .str s => s ≠ ""
  | .arr _ _ => true
  | .obj _ => true

/-- JS nullish test (`x ?? d` replaces exactly these). -/
def nullish : JVal → Bool
  | .undef => true
  | .jnull => true
  | _ => false

/-- `Array.isArray`. -/
def isArray : JVal → Bool
  | .arr _ _ => true
  | _ => false

/-- JS `typeof` as a string. -/
def typeofStr : JVal → String
  | .undef => "undefined"
  | .jnull => "object"
  | .bool _ => "boolean"
  | .num _ => "number"
  | .str _ => "string"
  | .arr _ _ => "object"
  | .obj _ => "object"

/-- First-match lookup in an association list of object fields. -/
def lookupF : List (String × JVal) → String → Option JVal
  | [], _ => none
  | (k, v) :: rest, key => if k = key then some v else lookupF rest key

/-- JS property assignment on an association list: overwrite the first
occurrence in place, otherwise append (JS key-order semantics). -/
def setF : List (String × JVal) → String → JVal → List (String × JVal)
  | [], key, v => [(key, v)]
  | (k, w) :: rest, key, v =>
    if k = key then (k, v) :: rest else (k, w) :: setF rest key v

/-- Property read.  `none` models a thrown `TypeError` (reading a
property of `null`/`undefined`); a missing property reads as
`undefined`. Arrays expose `length` and their extra properties; strings
expose `length`. -/
def getProp : JVal → String → Option JVal
  | .undef, _ => none
  | .jnull, _ => none
  | .obj fs, key => some ((lookupF fs key).getD .undef)
  | .arr es ps, key =>
    if key = "length" then some (.num es.length)
    else some ((lookupF ps key).getD .undef)
  | .str s, key => if key = "length" then some (.num s.length) else some .undef
  | .bool _, _ => some .undef
  | .num _, _ => (some .undef : Option JVal)

/-- Property write.  `none` models a thrown `TypeError`: strict-mode
assignment to a primitive or to `null`/`undefined`. -/
def setProp : JVal → String → JVal → Option JVal
  | .obj fs, key, v => some (.obj (setF fs key v))
  | .arr es ps, key, v => some (.arr es (setF ps key v))
  | _, _, _ => none

/-- Whether a property key is present on an object/array value. -/
def hasProp : JVal → String → Bool
  | .obj fs, key => (lookupF fs key).isSome
  | .arr _ ps, key => (lookupF ps key).isSome
  | _, _ => false

/-- Two-level property read `v.k1.k2`. -/
def getProp2 (v : JVal) (k1 k2 : String) : Option JVal := do
  let d ← getProp v k1
  getProp d k2

/-- Two-level property write `v.k1.k2 = x` (the nested object is read,
updated and written back, matching JS reference mutation). -/
def setProp2 (v : JVal) (k1 k2 : String) (x : JVal) : Option JVal := do
  let d ← getProp v k1
  let d' ← setProp d k2 x
  setProp v k1 d'

mutual
/-- JS string conversion (template literals, `String(x)`). -/
def toJsString : JVal → String
  | .undef => "undefined"
  | .jnull => "null"
  | .bool b => if b then "true" else "false"
  | .num n => toString n
  | .str s => s
  | .arr es _ => toJsStringElems es
  | .obj _ => "[object Object]"

/-- Array-to-string: elements joined by commas, `null`/`undefined`
elements rendered empty. -/
def toJsStringElems : List JVal → String
  | [] => ""
  | [v] => if nullish v then "" else toJsString v
  | v :: rest =>
    (if nullish v then "" else toJsString v) ++ "," ++ toJsStringElems rest
end

/-! ### `JSON.stringify` model -/

/-- Characters of a decimal numeral digit. -/
def digitChar (d : Nat) : Char :=
  if d = 0 then '0' else if d = 1 then '1' else if d = 2 then '2'
  else if d = 3 then '3' else if d = 4 then '4' else if d = 5 then '5'
  else if d = 6 then '6' else if d = 7 then '7' else if d = 8 then '8' else '9'

/-- Value of a decimal digit character. -/
def digitVal (c : Char) : Nat :=
  if c = '0' then 0 else if c = '1' then 1 else if c = '2' then 2
  else if c = '3' then 3 else if c = '4' then 4 else if c = '5' then 5
  else if c = '6' then 6 else if c = '7' then 7 else if c = '8' then 8 else 9

/-- Decimal digit test (ASCII only, as in JSON). -/
def isDigitChar (c : Char) : Bool :=
  c = '0' ∨ c = '1' ∨ c = '2' ∨ c = '3' ∨ c = '4' ∨
  c = '5' ∨ c = '6' ∨ c = '7' ∨ c = '8' ∨ c = '9'

/-- Worker for `natChars`: peel decimal digits starting from the least
significant, with a fuel bound that keeps the recursion structural. -/
def natCharsAux : Nat → Nat → List Char → List Char
  | 0, _, acc => acc
  | fuel + 1, n, acc =>
    if n < 10 then digitChar n :: acc
    else natCharsAux fuel (n / 10) (digitChar (n % 10) :: acc)

/-- Decimal numeral of a natural number, most significant digit first. -/
def natChars (m : Nat) : List Char := natCharsAux (m + 1) m []

/-- Decimal numeral of an integer. -/
def intChars (n : Int) : List Char :=
  if n < 0 then '-' :: natChars n.natAbs else natChars n.toNat

/-- `JSON.stringify` escaping of one string character (the quote and the
backslash; other characters pass through unchanged in this model). -/
def escChar (c : Char) : List Char :=
  if c = '"' then ['\\', '"'] else if c = '\\' then ['\\', '\\'] else [c]

/-- Escaped body of a JSON string literal. -/
def escStr (s : List Char) : List Char := s.flatMap escChar

def isUndef : JVal → Bool
  | .undef => true
  | _ => false

mutual
/-- Structural size of a value, also the fuel bound used by the parser. -/
def jsizeVal : JVal → Nat
  | .undef => 1
  | .jnull => 1
  | .bool _ => 1
  | .num _ => 1
  | .str _ => 1
  | .arr es _ => 1 + jsizeElems es
  | .obj fs => 1 + jsizeMembers fs

def jsizeElems : List JVal → Nat
  | [] => 0
  | v :: rest => 1 + jsizeVal v + jsizeElems rest

def jsizeMembers : List (String × JVal) → Nat
  | [] => 0
  | (_, v) :: rest => 1 + jsizeVal v + jsizeMembers rest
end

theorem jsizeMembers_filter_le (p : String × JVal → Bool) :
    ∀ fs, jsizeMembers (fs.filter p) ≤ jsizeMembers fs := by
  intro fs
  induction fs with
  | nil => simp [jsizeMembers]
  | cons kv rest ih =>
    by_cases h : p kv
    · simpa [List.filter, h, jsizeMembers] using ih
    · simp only [List.filter, h]
      obtain ⟨k, v⟩ := kv
      simp only [jsizeMembers]
      omega

mutual
/-- `JSON.stringify` (compact form, no indentation), producing a
character list.  Array extra properties are dropped and `undefined`
array elements print as `null`, `undefined` object members are skipped,
as the builtin does. -/
def printVal : JVal → List Char
  | .undef => ['n', 'u', 'l', 'l']
  | .jnull => ['n', 'u', 'l', 'l']
  | .bool b => if b then ['t', 'r', 'u', 'e'] else ['f', 'a', 'l', 's', 'e']
  | .num n => intChars n
  | .str s => '"' :: escStr s.data ++ ['"']
  | .arr es _ => '[' :: printElems es ++ [']']
  | .obj fs => '\x7b' :: printMembers fs ++ ['\x7d']

/-- Comma-separated array elements. -/
def printElems : List JVal → List Char
  | [] => []
  | [v] => printVal v
  | v :: rest => printVal v ++ ',' :: printElems rest

/-- Comma-separated object members; members whose value is `undefined`
are skipped, as `JSON.stringify` does. -/
def printMembers : List (String × JVal) → List Char
  | [] => []
  | (k, v) :: rest =>
    if isUndef v then printMembers rest
    else
      let tail := printMembers rest
      '"' :: escStr k.data ++ '"' :: ':' :: printVal v ++
        (if tail = [] then [] else ',' :: tail)
end

/-- Model of the `JSON.stringify` builtin on a value. -/
def stringify (v : JVal) : String := String.mk (printVal v)

/-! ### `JSON.parse` model -/

/-- JSON whitespace. -/
def isWsChar (c : Char) : Bool := c = ' ' ∨ c = '\n' ∨ c = '\t' ∨ c = '\r'

def skipWs : List Char → List Char
  | [] => []
  | c :: rest => if isWsChar c then skipWs rest else c :: rest

/-- Unescaping of a JSON escape sequence character (no `\u` escapes in
this model). -/
def unescChar (c : Char) : Option Char :=
  if c = '"' then some '"' else if c = '\\' then some '\\'
  else if c = '/' then some '/' else if c = 'n' then some '\n'
  else if c = 't' then some '\t' else if c = 'r' then some '\r'
  else if c = 'b' then some '\x08' else if c = 'f' then some '\x0c'
  else none

/-- Body of a JSON string literal after the opening quote: returns the
decoded characters and the input after the closing quote. -/
def parseStrBody : List Char → Option (List Char × List Char)
  | [] => none
  | c :: rest =>
    if c = '"' then some ([], rest)
    else if c = '\\' then
      match rest with
      | [] => none
      | e :: rest2 =>
        match unescChar e with
        | none => none
        | some ch =>
          match parseStrBody rest2 with
          | none => none
          | some (s, r) => some (ch :: s, r)
    else
      match parseStrBody rest with
      | none => none
      | some (s, r) => some (c :: s, r)

/-- Longest digit prefix and its decimal value. -/
def takeDigits : List Char → List Char × List Char
  | [] => ([], [])
  | c :: rest =>
    if isDigitChar c then
      let (ds, r) := takeDigits rest
      (c :: ds, r)
    else ([], c :: rest)

def digitsToNat (ds : List Char) : Nat :=
  ds.foldl (fun a c => 10 * a + digitVal c) 0

/-- JSON numeral (integer part only in this model). -/
def parseNum : List Char → Option (JVal × List Char)
  | [] => none
  | c :: rest =>
    if c = '-' then
      match takeDigits rest with
      | ([], _) => none
      | (ds, r) => some (.num (-(digitsToNat ds : Int)), r)
    else
      match takeDigits (c :: rest) with
      | ([], _) => none
      | (ds, r) => some (.num (digitsToNat ds), r)

mutual
/-- JSON value parser with a fuel bound on nesting (the fuel is at least
the structural size of any value it needs to read back). -/
def parseVal : Nat → List Char → Option (JVal × List Char)
  | 0, _ => none
  | fuel + 1, input =>
    match skipWs input with
    | [] => none
    | c :: rest =>
      if c = '"' then
        match parseStrBody rest with
        | none => none
        | some (s, r) => some (.str (String.mk s), r)
      else if c = '[' then
        match skipWs rest with
        | ']' :: r => some (.arr [] [], r)
        | _ => match parseElems fuel rest with
          | none => none
          | some (es, r) => some (.arr es [], r)
      else if c = '\x7b' then
        match skipWs rest with
        | '\x7d' :: r => some (.obj [], r)
        | _ => match parseMembers fuel rest with
          | none => none
          | some (fs, r) => some (.obj fs, r)
      else if List.isPrefixOf ['t', 'r', 'u', 'e'] (c :: rest) then
        some (.bool true, (c :: rest).drop 4)
      else if List.isPrefixOf ['f', 'a', 'l', 's', 'e'] (c :: rest) then
        some (.bool false, (c :: rest).drop 5)
      else if List.isPrefixOf ['n', 'u', 'l', 'l'] (c :: rest) then
        some (.jnull, (c :: rest).drop 4)
      else if c = '-' ∨ isDigitChar c then parseNum (c :: rest)
      else none

/-- One-or-more comma-separated array elements followed by `]`. -/
def parseElems : Nat → List Char → Option (List JVal × List Char)
  | 0, _ => none
  | fuel + 1, input =>
    match parseVal fuel input with
    | none => none
    | some (v, r) =>
      match skipWs r with
      | ',' :: r2 =>
        match parseElems fuel r2 with
        | none => none
        | some (vs, r3) => some (v :: vs, r3)
      | ']' :: r2 => some ([v], r2)
      | _ => none

/-- One-or-more comma-separated object members followed by the closing
brace. -/
def parseMembers : Nat → List Char → Option (List (String × JVal) × List Char)
  | 0, _ => none
  | fuel + 1, input =>
    match skipWs input with
    | '"' :: r =>
      match parseStrBody r with
      | none => none
      | some (k, r1) =>
        match skipWs r1 with
        | ':' :: r2 =>
          match parseVal fuel r2 with
          | none => none
          | some (v, r3) =>
            match skipWs r3 with
            | ',' :: r4 =>
              match parseMembers fuel r4 with
              | none => none
              | some (fs, r5) => some ((String.mk k, v) :: fs, r5)
            | '\x7d' :: r4 => some ([(String.mk k, v)], r4)
            | _ => none
        | _ => none
    | _ => none
end

/-- Model of the `JSON.parse` builtin: a single value surrounded by
optional whitespace; anything else throws (`none`). -/
def jsonParse (s : String) : Option JVal :=
  match parseVal (s.length + 1) s.data with
  | none => none
  | some (v, rest) => if skipWs rest = [] then some v else none

/-! ### Request Gateway (`src/api/analyze.js`) -/

/-- Strict string equality test against a string literal (`x === 's'`). -/
def jvalIsStr (v : JVal) (s : String) : Bool :=
  match v with
  | .str t => t = s
  | _ => false

/-- The characters of a triple-backtick fence with `json` tag. -/
def fenceJson : List Char := ['\x60', '\x60', '\x60', 'j', 's', 'o', 'n']

/-- The characters of a plain triple-backtick fence. -/
def fencePlain : List Char := ['\x60', '\x60', '\x60']

/-- `text.replace(/\x60\x60\x60json|\x60\x60\x60/g, '')`: left-to-right
scan removing every occurrence, preferring the tagged fence (regex
alternation order). -/
def stripFences : List Char → List Char
  | '\x60' :: '\x60' :: '\x60' :: 'j' :: 's' :: 'o' :: 'n' :: rest => stripFences rest
  | '\x60' :: '\x60' :: '\x60' :: rest => stripFences rest
  | c :: rest => c :: stripFences rest
  | [] => []

/-- `.trim()`: leading and trailing whitespace removed. -/
def trimChars (cs : List Char) : List Char :=
  (skipWs (skipWs cs).reverse).reverse

/-- JS `String.prototype.trim` on a string. -/
def jsTrim (s : String) : String := String.mk (trimChars s.data)

/-- JS `String.prototype.toUpperCase` (ASCII). -/
def jsToUpper (s : String) : String := String.mk (s.data.map Char.toUpper)

/-- Stand-in message for an engine-raised `TypeError` (reading a
property of `null`/`undefined`, or strict-mode assignment to a
primitive); its exact text is engine specific, only its truthiness
matters to the code. -/
def typeErrorMsg : String := "TypeError"

/-- Stand-in message for the `SyntaxError` of a failed `res.json()`. -/
def jsonSyntaxErrMsg : String := "SyntaxError"

/-- `res.status(s).json({ error: m })`. -/
def errObj (m : String) : JVal := .obj [("error", .str m)]

/-- The catch-all body: `{ error: error.message || 'Analysis failed on
server' }`. -/
def catchBody (m : String) : JVal :=
  errObj (if m ≠ "" then m else "Analysis failed on server")

/-- The humanize prompt up to `Text: ` (the content is appended). -/
def humanizePromptPrefix : String :=
  "You are an expert humanizer. Rewrite the following text to make it sound more natural, human, and less robotic. Keep the meaning but vary sentence structure, add natural flow, and remove AI-like patterns. Return ONLY the rewritten text as a JSON object with property \"humanized_text\". Text: "

/-- The detection prompt (the requested JSON schema included). -/
def detectionPrompt : String :=
  "Analyze the provided content for AI generation. \n      You are an AI detector using the Gemini 2.5 Flash model.\n      Return a JSON object strictly in this format:\n      \x7b\n        \"detection\": \x7b\n          \"risk_score\": (number 0-100),\n          \"risk_level\": (\"HIGH\", \"MEDIUM\", or \"LOW\"),\n          \"summary\": \"Short 1-sentence summary of why it looks like AI or Human\",\n          \"detailed_analysis\": \"Longer explanation with bullet points if needed\",\n          \"signals\": [\"Specific indicator 1\", \"Specific indicator 2\", \"Specific indicator 3\"]\n        \x7d\n      \x7d\n      Analyze this content:"

/-- The safe default object substituted when the model reply fails to
parse in a detection mode. -/
def parseFailDetection : JVal :=
  .obj [("detection", .obj
    [("risk_score", .num 0),
     ("risk_level", .str "LOW"),
     ("summary", .str "Analysis failed to parse correctly. Please try again."),
     ("detailed_analysis", .str "The AI returned an invalid response format."),
     ("signals", .arr [] [])])]

/-- `if (!data.detection) data.detection = \x7b\x7d` in the handler's
step 6. -/
def gatewayEnsureDetection (data1 : JVal) : Option JVal := do
  let d0 ← getProp data1 "detection"
  if !truthy d0 then setProp data1 "detection" (.obj []) else pure data1

/-- Step 6 of the handler for detection modes: the field-by-field
`detection` repair (`--- CRITICAL FIX: Guarantee structure exists ---`).
`none` models a thrown `TypeError` (e.g. `data.detection` is a truthy
primitive). -/
def gatewayNormalize (data0 : JVal) : Option JVal := do
  let data1 := if !truthy data0 || typeofStr data0 ≠ "object" then JVal.obj [] else data0
  let data2 ← gatewayEnsureDetection data1
  let rs ← getProp2 data2 "detection" "risk_score"
  let data3 ← setProp2 data2 "detection" "risk_score"
    (if typeofStr rs = "number" then rs else .num 0)
  let rl ← getProp2 data3 "detection" "risk_level"
  let data4 ← setProp2 data3 "detection" "risk_level"
    (if truthy rl then rl else .str "LOW")
  let sm ← getProp2 data4 "detection" "summary"
  let data5 ← setProp2 data4 "detection" "summary"
    (if truthy sm then sm else .str "Analysis completed.")
  let sg ← getProp2 data5 "detection" "signals"
  if !isArray sg then
    setProp2 data5 "detection" "signals" (.arr [.str "No specific signals detected."] [])
  else
    pure data5

/-- An incoming HTTP request to the gateway. -/
structure Request where
  method : String
  body : JVal

/-- The observable outcome of one handler invocation: HTTP status, JSON
body, and how many times the external model was called. -/
structure HandlerResult where
  status : Nat
  body : JVal
  modelCalls : Nat

/-- The gateway handler of `src/api/analyze.js`, parameterised by the
environment credential and by the external model
(`model.generateContent` + `response.text()`, modelled as one call that
either returns the reply text or throws). -/
def handler (apiKey : String) (req : Request)
    (oracle : String → List (JVal × JVal) → Except String String) : HandlerResult :=
  if req.method ≠ "POST" then ⟨405, errObj "Method Not Allowed", 0⟩
  else if apiKey = "" then
    ⟨500, errObj "Server Configuration Error: API Key missing", 0⟩
  else if nullish req.body then ⟨500, catchBody typeErrorMsg, 0⟩
  else
    let content := (getProp req.body "content").getD .undef
    let mode := (getProp req.body "mode").getD .undef
    let mimeType := (getProp req.body "mimeType").getD .undef
    let prompt :=
      if jvalIsStr mode "humanize" then humanizePromptPrefix ++ toJsString content
      else detectionPrompt ++
        (if jvalIsStr mode "text" then "\n\"" ++ toJsString content ++ "\"" else "")
    let imageParts :=
      if (jvalIsStr mode "image" || jvalIsStr mode "file") && truthy mimeType then
        [(content, mimeType)]
      else []
    match oracle prompt imageParts with
    | .error e => ⟨500, catchBody e, 1⟩
    | .ok text =>
      let cleanText := String.mk (trimChars (stripFences text.data))
      let parsed := jsonParse cleanText
      if jvalIsStr mode "humanize" then
        let data := match parsed with
          | some v => v
          | none => .obj [("humanized_text", .str text)]
        match getProp data "humanized_text" with
        | none => ⟨500, catchBody typeErrorMsg, 1⟩
        | some ht =>
          ⟨200, .obj [("humanizer", if truthy ht then ht else .str text)], 1⟩
      else
        let data0 := match parsed with
          | some v => v
          | none => parseFailDetection
        match gatewayNormalize data0 with
        | none => ⟨500, catchBody typeErrorMsg, 1⟩
        | some data => ⟨200, data, 1⟩

/-! ### Response Reconciler and client state (`src/App.tsx`) -/

/-- `x ?? dflt`. -/
def nullishDefault (dflt v : JVal) : JVal := if nullish v then dflt else v

/-- `x || dflt`. -/
def falsyDefault (dflt v : JVal) : JVal := if truthy v then v else dflt

/-- The default `detection` the client reconstructs when the response
has none (App.tsx lines 195-208). -/
def clientDefaultDetection : JVal :=
  .obj [("risk_score", .num 0),
        ("risk_level", .str "LOW"),
        ("summary", .str "Analysis incomplete."),
        ("detailed_analysis", .str "No details returned."),
        ("signals", .arr [] []),
        ("is_ai_generated", .bool false),
        ("ai_probability", .num 0),
        ("human_probability", .num 1),
        ("confidence", .str "low"),
        ("model_suspected", .jnull)]

/-- `if (!response.detection) response.detection = { ...defaults }`. -/
def ensureDetection (r : JVal) : Option JVal := do
  let d ← getProp r "detection"
  if !truthy d then setProp r "detection" clientDefaultDetection else pure r

/-- One line `response.detection.key = fix (response.detection.key)`. -/
def fieldStep (key : String) (fix : JVal → JVal) (r : JVal) : Option JVal := do
  let v ← getProp2 r "detection" key
  setProp2 r "detection" key (fix v)

/-- Number of elements of an array value (`x.length` once `Array.isArray
x` is known). -/
def jarrLen : JVal → Nat
  | .arr es _ => es.length
  | _ => 0

/-- `if (!Array.isArray(signals) || signals.length === 0) signals = [..]`. -/
def signalsStep (r : JVal) : Option JVal := do
  let s ← getProp2 r "detection" "signals"
  if !isArray s || jarrLen s == 0 then
    setProp2 r "detection" "signals" (.arr [.str "No specific signals detected"] [])
  else pure r

/-- `if (!Array.isArray(recommendations)) recommendations = [..]`. -/
def recsStep (r : JVal) : Option JVal := do
  let v ← getProp r "recommendations"
  if !isArray v then
    setProp r "recommendations" (.arr [.str "Review manually", .str "Consider context"] [])
  else pure r

/-- `if (!response.humanizer) response.humanizer = { ...defaults }`. -/
def humanizerStep (r : JVal) : Option JVal := do
  let v ← getProp r "humanizer"
  if !truthy v then
    setProp r "humanizer" (.obj
      [("requested", .bool false),
       ("humanized_text", .jnull),
       ("changes_made", .arr [] []),
       ("improvement_score", .num 0),
       ("notes", .jnull)])
  else pure r

/-- The Reconciler's defaulting block of `handleAnalyze` (App.tsx lines
194-240), before the `file_info`/`mode`/`timestamp` stamping.  `none`
models a thrown `TypeError`, caught by the surrounding `catch`. -/
def reconcileDefaults (r0 : JVal) : Option JVal := do
  let r1 ← ensureDetection r0
  let r2 ← fieldStep "risk_score" (nullishDefault (.num 0)) r1
  let r3 ← fieldStep "risk_level" (falsyDefault (.str "LOW")) r2
  let r4 ← fieldStep "summary" (falsyDefault (.str "Analysis completed")) r3
  let r5 ← fieldStep "detailed_analysis" (falsyDefault (.str "No detailed analysis available")) r4
  let r6 ← fieldStep "confidence" (falsyDefault (.str "low")) r5
  let r7 ← fieldStep "is_ai_generated" (nullishDefault (.bool false)) r6
  let r8 ← fieldStep "ai_probability" (nullishDefault (.num 0)) r7
  let r9 ← fieldStep "human_probability" (nullishDefault (.num 1)) r8
  let r10 ← fieldStep "model_suspected" (falsyDefault .jnull) r9
  let r11 ← signalsStep r10
  let r12 ← recsStep r11
  humanizerStep r12

/-- A selected upload (`selectedFile` state): name, MIME type, base64
payload, byte size. -/
structure FileSel where
  name : String
  mime : String
  data : String
  size : Nat

/-- The client state the analyzed claims talk about. -/
structure AppState where
  inputText : String
  selectedFile : Option FileSel
  activeTab : String
  isLoading : Bool
  isHumanizing : Bool
  result : Option JVal
  history : List JVal

/-- Outcome of one `fetch('/api/analyze')`: a network rejection, or a
response with its `ok` flag and JSON body (`none` body = `res.json()`
rejected). -/
inductive FetchOutcome where
  | netErr : String → FetchOutcome
  | resp : Bool → Option JVal → FetchOutcome

/-- Result of one `handleAnalyze` run: the new state, whether the
gateway fetch was issued, and the user-visible alert if any. -/
structure AnalyzeResult where
  state : AppState
  fetched : Bool
  alert : Option String

/-- `alert(\x60Analysis failed: ...\x60)` message. -/
def analyzeAlert (m : String) : String :=
  "Analysis failed: " ++ (if m ≠ "" then m else "Unknown error")

/-- `handleAnalyze` (App.tsx lines 167-264): gating, fetch, response
reconciliation, record stamping, state commit; the fetch outcome and
the capture time are parameters. -/
def handleAnalyze (s : AppState) (f : FetchOutcome) (now : String) : AnalyzeResult :=
  if s.activeTab = "text" && jsTrim s.inputText = "" then ⟨s, false, none⟩
  else if s.activeTab ≠ "text" && s.selectedFile.isNone then ⟨s, false, none⟩
  else
    let s1 : AppState := { s with isLoading := true, result := none }
    let fail : String → AnalyzeResult := fun m =>
      ⟨{ s1 with isLoading := false }, true, some (analyzeAlert m)⟩
    match f with
    | .netErr m => fail m
    | .resp ok body =>
      if !ok then
        let err : JVal := body.getD (.obj [])
        match getProp err "error" with
        | none => fail typeErrorMsg
        | some v => fail (if truthy v then toJsString v else "Server error")
      else
        match body with
        | none => fail jsonSyntaxErrMsg
        | some response =>
          match reconcileDefaults response with
          | none => fail typeErrorMsg
          | some r1 =>
            let fileInfo : Option JVal :=
              if s.activeTab = "text" then
                some (.obj [("name", .jnull), ("type", .str "text"),
                            ("size_bytes", .num s.inputText.length), ("pages", .jnull)])
              else
                match s.selectedFile with
                | some file =>
                  some (.obj [("name", .str file.name), ("type", .str file.mime),
                              ("size_bytes", .num file.size), ("pages", .jnull)])
                | none => none
            match fileInfo with
            | none => fail typeErrorMsg
            | some fi =>
              match setProp r1 "file_info" fi with
              | none => fail typeErrorMsg
              | some r2 =>
                match setProp r2 "mode" (.str s.activeTab) with
                | none => fail typeErrorMsg
                | some r3 =>
                  match setProp r3 "timestamp" (.str now) with
                  | none => fail typeErrorMsg
                  | some r4 =>
                    let s2 := { s1 with
                      result := some r4
                      history := r4 :: s.history
                      isLoading := false }
                    ⟨s2, true, none⟩

/-- Fields an object spread `\x7b...v\x7d` copies out of a value. -/
def spreadFields : JVal → List (String × JVal)
  | .obj fs => fs
  | .arr es ps => (es.enum.map (fun iv => (toString iv.1, iv.2))) ++ ps
  | .str s => s.data.enum.map (fun ic => (toString ic.1, JVal.str (String.mk [ic.2])))
  | _ => []

/-- `\x7b ...prev, key: x \x7d`. -/
def jsSpread (v : JVal) (key : String) (x : JVal) : JVal :=
  .obj (setF (spreadFields v) key x)

/-- Result of one `handleHumanize` run. -/
structure HumanizeResult where
  state : AppState
  fetched : Bool
  alert : Option String

/-- The fixed alert of the humanize `catch` block. -/
def humanizeFailAlert : String := "Humanization failed. Please try again."

/-- `handleHumanize` (App.tsx lines 266-306): requires a current result,
then fetches in humanize mode and replaces only the `humanizer` field of
the displayed result. -/
def handleHumanize (s : AppState) (f : FetchOutcome) : HumanizeResult :=
  match s.result with
  | none => ⟨s, false, none⟩
  | some prev =>
    let s1 : AppState := { s with isHumanizing := true }
    let fail : HumanizeResult :=
      ⟨{ s1 with isHumanizing := false }, true, some humanizeFailAlert⟩
    if s.activeTab ≠ "text" && s.selectedFile.isNone then
      ⟨{ s1 with isHumanizing := false }, false, some humanizeFailAlert⟩
    else
      match f with
      | .netErr _ => fail
      | .resp ok body =>
        if !ok then fail
        else
          match body with
          | none => fail
          | some response =>
            match getProp response "humanizer" with
            | none => fail
            | some hv =>
              let pick : String → JVal := fun k =>
                if nullish hv then .undef else (getProp hv k).getD .undef
              let ht := pick "humanized_text"
              let cm := pick "changes_made"
              let sc := pick "improvement_score"
              let nt := pick "notes"
              let newHum : JVal := .obj
                [("requested", .bool true),
                 ("humanized_text", if truthy ht then ht else .jnull),
                 ("changes_made", if isArray cm then cm else .arr [] []),
                 ("improvement_score", if truthy sc then sc else .num 0),
                 ("notes", if truthy nt then nt else .jnull)]
              let s2 := { s1 with
                result := some (jsSpread prev "humanizer" newHum)
                isHumanizing := false }
              ⟨s2, true, none⟩

/-! ### History Aggregator (`src/App.tsx`) -/

/-- The per-entry validation of the history load effect (App.tsx lines
37-42). -/
def validEntry (item : JVal) : Bool :=
  truthy item &&
    (let d := (getProp item "detection").getD .undef
     truthy d && typeofStr d = "object" &&
       isArray ((getProp d "signals").getD .undef))

/-- The history load effect (App.tsx lines 26-50) applied to the stored
`awj_history_v3` blob: absent, empty, unparseable or non-array blobs
yield the initial empty history; array blobs are filtered entry-wise. -/
def loadHistory (saved : Option String) : List JVal :=
  match saved with
  | none => []
  | some s =>
    if s = "" then []
    else
      match jsonParse s with
      | none => []
      | some (.arr es _) => es.filter validEntry
      | some _ => []

/-- The history save effect (App.tsx lines 53-55): the serialized blob
written to `awj_history_v3`. -/
def saveHistory (history : List JVal) : String := stringify (.arr history [])

/-- One `\x7b high, medium, low \x7d` counter row. -/
structure Buckets where
  high : Nat
  medium : Nat
  low : Nat

/-- The three counted buckets. -/
structure TypeStats where
  text : Buckets
  file : Buckets
  image : Buckets

def bumpBucket (b : Buckets) (level : String) : Buckets :=
  if level = "high" then { b with high := b.high + 1 }
  else if level = "medium" then { b with medium := b.medium + 1 }
  else { b with low := b.low + 1 }

/-- One iteration of the `history.forEach` in `typeDistributionStats`;
`none` models a thrown `TypeError` (`.toUpperCase()` on a non-string). -/
def distStep (stats : TypeStats) (item : JVal) : Option TypeStats :=
  if !truthy item then some stats
  else
    let d := (getProp item "detection").getD .undef
    if !truthy d then some stats
    else
      let m0 := (getProp item "mode").getD .undef
      let m1 := if jvalIsStr m0 "video" then JVal.str "file" else m0
      let modeKey := if truthy m1 then toJsString m1 else "text"
      let rl := falsyDefault (.str "LOW") ((getProp d "risk_level").getD .undef)
      match rl with
      | .str t =>
        let up := jsToUpper t
        let level := if up = "HIGH" then "high"
          else if up = "MEDIUM" then "medium" else "low"
        if modeKey = "text" then some { stats with text := bumpBucket stats.text level }
        else if modeKey = "file" then some { stats with file := bumpBucket stats.file level }
        else if modeKey = "image" then some { stats with image := bumpBucket stats.image level }
        else some stats
      | _ => none

/-- `typeDistributionStats` (App.tsx lines 75-106): the three chart rows
`(name, High, Medium, Low)`; `none` models a thrown exception. -/
def typeDistributionStats (history : List JVal) :
    Option (List (String × Nat × Nat × Nat)) := do
  let stats ← history.foldlM distStep ⟨⟨0, 0, 0⟩, ⟨0, 0, 0⟩, ⟨0, 0, 0⟩⟩
  pure [("Text", stats.text.high, stats.text.medium, stats.text.low),
        ("File", stats.file.high, stats.file.medium, stats.file.low),
        ("Image", stats.image.high, stats.image.medium, stats.image.low)]

/-- `handleFileChange` (App.tsx lines 137-157): the 20 MB client-side
ceiling; an oversized file is alerted and never selected. -/
def handleFileChange (name mime data : String) (size : Nat) :
    Option FileSel × Option String :=
  if size > 20 * 1024 * 1024 then
    (none, some "File too large. Please select a file under 20MB.")
  else (some ⟨name, mime, data, size⟩, none)

/-! ### Basic lemmas about the property model -/

/-- Container = plain object or array: the values strict-mode property
assignment succeeds on. -/
def isContainer : JVal → Bool
  | .obj _ => true
  | .arr _ _ => true
  | _ => false

theorem lookupF_setF_same (fs : List (String × JVal)) (k : String) (v : JVal) :
    lookupF (setF fs k v) k = some v := by
  induction fs with
  | nil => simp [setF, lookupF]
  | cons kv rest ih =>
    obtain ⟨k', w⟩ := kv
    by_cases h : k' = k
    · simp [setF, lookupF, h]
    · simp [setF, lookupF, h, ih]

theorem lookupF_setF_ne (fs : List (String × JVal)) (k k' : String) (v : JVal)
    (h : k' ≠ k) : lookupF (setF fs k v) k' = lookupF fs k' := by
  induction fs with
  | nil => simp [setF, lookupF, Ne.symm h]
  | cons kv rest ih =>
    obtain ⟨k0, w⟩ := kv
    by_cases h0 : k0 = k
    · subst h0
      simp [setF, lookupF, Ne.symm h]
    · by_cases h1 : k0 = k'
      · simp [setF, lookupF, h0, h1, h]
      · simp [setF, lookupF, h0, h1, ih]

theorem setF_self (fs : List (String × JVal)) (k : String) (v : JVal)
    (h : lookupF fs k = some v) : setF fs k v = fs := by
  induction fs with
  | nil => simp [lookupF] at h
  | cons kv rest ih =>
    obtain ⟨k0, w⟩ := kv
    by_cases h0 : k0 = k
    · subst h0
      simp [lookupF] at h
      simp [setF, h]
    · simp [lookupF, h0] at h
      simp [setF, h0, ih h]

theorem setProp_isSome (c : JVal) (k : String) (v : JVal)
    (hc : isContainer c = true) : (setProp c k v).isSome := by
  cases c <;> simp_all [isContainer, setProp]

theorem isContainer_of_setProp {c c' : JVal} {k : String} {v : JVal}
    (h : setProp c k v = some c') : isContainer c' = true := by
  cases c with
  | obj fs =>
    simp [setProp] at h
    subst h
    rfl
  | arr es ps =>
    simp [setProp] at h
    subst h
    rfl
  | _ => simp [setProp] at h

theorem truthy_of_container {c : JVal} (h : isContainer c = true) :
    truthy c = true := by
  cases c <;> simp_all [isContainer, truthy]

theorem typeof_object_of_container {c : JVal} (h : isContainer c = true) :
    typeofStr c = "object" := by
  cases c <;> simp_all [isContainer, typeofStr]

theorem getProp_isSome_of_not_nullish {c : JVal} (k : String)
    (h : nullish c = false) : (getProp c k).isSome := by
  cases c <;> simp_all [nullish, getProp] <;> split <;> simp

theorem nullish_false_of_truthy {c : JVal} (h : truthy c = true) :
    nullish c = false := by
  cases c <;> simp_all [truthy, nullish]

theorem getProp_setProp_same {c c' : JVal} {k : String} {v : JVal}
    (hk : k ≠ "length") (h : setProp c k v = some c') :
    getProp c' k = some v := by
  cases c with
  | obj fs =>
    simp [setProp] at h
    subst h
    simp [getProp, lookupF_setF_same]
  | arr es ps =>
    simp [setProp] at h
    subst h
    simp [getProp, hk, lookupF_setF_same]
  | _ => simp [setProp] at h

theorem getProp_setProp_ne {c c' : JVal} {k k' : String} {v : JVal}
    (hne : k' ≠ k) (h : setProp c k v = some c') :
    getProp c' k' = getProp c k' := by
  cases c with
  | obj fs =>
    simp [setProp] at h
    subst h
    simp [getProp, lookupF_setF_ne _ _ _ _ hne]
  | arr es ps =>
    simp [setProp] at h
    subst h
    by_cases hl : k' = "length"
    · simp [getProp, hl]
    · simp [getProp, hl, lookupF_setF_ne _ _ _ _ hne]
  | _ => simp [setProp] at h

theorem hasProp_setProp_same {c c' : JVal} {k : String} {v : JVal}
    (h : setProp c k v = some c') : hasProp c' k = true := by
  cases c with
  | obj fs =>
    simp [setProp] at h
    subst h
    simp [hasProp, lookupF_setF_same]
  | arr es ps =>
    simp [setProp] at h
    subst h
    simp [hasProp, lookupF_setF_same]
  | _ => simp [setProp] at h

theorem hasProp_setProp_preserve {c c' : JVal} {k k' : String} {v : JVal}
    (h : setProp c k v = some c') (hp : hasProp c k' = true) :
    hasProp c' k' = true := by
  by_cases hne : k' = k
  · subst hne
    exact hasProp_setProp_same h
  · cases c with
    | obj fs =>
      simp [setProp] at h
      subst h
      simpa [hasProp, lookupF_setF_ne _ _ _ _ hne] using hp
    | arr es ps =>
      simp [setProp] at h
      subst h
      simpa [hasProp, lookupF_setF_ne _ _ _ _ hne] using hp
    | _ => simp [setProp] at h

theorem setProp_self {c : JVal} {k : String} {v : JVal}
    (hk : k ≠ "length") (hp : hasProp c k = true) (h : getProp c k = some v) :
    setProp c k v = some c := by
  cases c with
  | obj fs =>
    simp [hasProp, Option.isSome_iff_exists] at hp
    obtain ⟨w, hw⟩ := hp
    simp [getProp, hw] at h
    subst h
    simp [setProp, setF_self _ _ _ hw]
  | arr es ps =>
    simp [hasProp, Option.isSome_iff_exists] at hp
    obtain ⟨w, hw⟩ := hp
    simp [getProp, hk, hw] at h
    subst h
    simp [setProp, setF_self _ _ _ hw]
  | _ => simp [hasProp] at hp

/-! ### Claim theorems -/

/-- A well-formed text-mode detection request. -/
def textReq : Request :=
  ⟨"POST", .obj [("content", .str "hello"), ("mode", .str "text"), ("mimeType", .jnull)]⟩

/-- C1, counterexample: when the model call throws, the 500 response
body is the bare `\x7b error \x7d` object — it has no `detection`
property at all, contradicting the claimed neutral-default detection
shape. -/
theorem handler_throw_bare_error_cex :
    handler "key" textReq (fun _ _ => .error "boom") =
      ⟨500, .obj [("error", .str "boom")], 1⟩ ∧
    hasProp (handler "key" textReq (fun _ _ => .error "boom")).body "detection" = false := by
  exact ⟨rfl, rfl⟩

/-- C1 (amended): if the external model call throws inside the handler,
the catch block returns status 500 with the bare body
`\x7b error: message \x7d` (falling back to `'Analysis failed on server'`
for an empty message); no `detection` object is attached on this path. -/
theorem handler_modelThrow_500_error_body
    (apiKey : String) (req : Request) (m : String)
    (hkey : apiKey ≠ "") (hm : req.method = "POST") (hb : nullish req.body = false) :
    handler apiKey req (fun _ _ => .error m) =
      ⟨500, errObj (if m ≠ "" then m else "Analysis failed on server"), 1⟩ := by
  unfold handler
  simp [hm, hkey, hb, catchBody]

/-- Witness for C1's amended theorem at a concrete input. -/
theorem handler_modelThrow_500_error_body_witness :
    handler "key" textReq (fun _ _ => .error "boom") =
      ⟨500, errObj (if "boom" ≠ "" then "boom" else "Analysis failed on server"), 1⟩ :=
  handler_modelThrow_500_error_body "key" textReq "boom" (by decide) rfl rfl

/-- A detection request whose `content` exceeds the 20 MiB ceiling the
spec describes. -/
def bigContent : String := String.mk (List.replicate 20971521 'a')

def bigReq : Request :=
  ⟨"POST", .obj [("content", .str bigContent), ("mode", .str "text"), ("mimeType", .jnull)]⟩

/-- C2, counterexample: a request whose `content` is longer than
20 * 1024 * 1024 is not rejected with 413 — the handler still invokes
the external model (once) and answers 200. -/
theorem handler_oversize_processed_cex :
    bigContent.length = 20971521 ∧ 20971521 > 20 * 1024 * 1024 ∧
    (handler "key" bigReq (fun _ _ => .ok "x")).status = 200 ∧
    (handler "key" bigReq (fun _ _ => .ok "x")).modelCalls = 1 := by
  refine ⟨?_, by norm_num, by rfl, by rfl⟩
  unfold bigContent
  rw [String.length]
  exact List.length_replicate 20971521 'a'

/-- C2 (amended): the gateway performs no payload-size check at all —
no run of the handler ever returns status 413, whatever the request or
model behaviour; the 20 MiB ceiling exists only client-side in
`handleFileChange`, which alerts and refuses to select a file larger
than 20 * 1024 * 1024 bytes, so such content never reaches the gateway
from the UI. -/
theorem handler_never_413_client_caps_size
    (apiKey : String) (req : Request)
    (oracle : String → List (JVal × JVal) → Except String String)
    (name mime data : String) (size : Nat) (hsz : size > 20 * 1024 * 1024) :
    (handler apiKey req oracle).status ≠ 413 ∧
    handleFileChange name mime data size =
      (none, some "File too large. Please select a file under 20MB.") := by
  constructor
  · unfold handler
    dsimp only
    repeat' split
    all_goals simp
  · unfold handleFileChange
    simp [hsz]

/-- Witness for C2's amended theorem at concrete inputs. -/
theorem handler_never_413_client_caps_size_witness :
    (handler "key" textReq (fun _ _ => .ok "x")).status ≠ 413 ∧
    handleFileChange "a.pdf" "application/pdf" "QUJD" 20971521 =
      (none, some "File too large. Please select a file under 20MB.") :=
  handler_never_413_client_caps_size "key" textReq (fun _ _ => .ok "x")
    "a.pdf" "application/pdf" "QUJD" 20971521 (by norm_num)

/-- C10: with an empty (or whitespace-only) text input in text mode, or
no selected file in a file/image mode, `handleAnalyze` returns before
doing anything: no fetch, no alert, and the state — including `result`,
`history` and the loading flag — is exactly the input state. -/
theorem handleAnalyze_gating_noop (s : AppState) (f : FetchOutcome) (now : String)
    (h : (s.activeTab = "text" ∧ jsTrim s.inputText = "") ∨
         (s.activeTab ≠ "text" ∧ s.selectedFile = none)) :
    handleAnalyze s f now = ⟨s, false, none⟩ := by
  rcases h with ⟨h1, h2⟩ | ⟨h1, h2⟩
  · simp [handleAnalyze, h1, h2]
  · simp [handleAnalyze, h1, h2]

/-- Witness for C10 at concrete states: a whitespace-only text input and
a file tab without a selection. -/
theorem handleAnalyze_gating_noop_witness :
    handleAnalyze ⟨"  ", none, "text", false, false, none, []⟩ (.netErr "x") "T" =
      ⟨⟨"  ", none, "text", false, false, none, []⟩, false, none⟩ ∧
    handleAnalyze ⟨"", none, "file", false, false, none, []⟩ (.netErr "x") "T" =
      ⟨⟨"", none, "file", false, false, none, []⟩, false, none⟩ :=
  ⟨handleAnalyze_gating_noop _ _ _ (Or.inl ⟨rfl, by rfl⟩),
   handleAnalyze_gating_noop _ _ _ (Or.inr ⟨by simp, rfl⟩)⟩

/-- A history record with `mode: "video"` and `risk_level: "HIGH"`. -/
def videoRec : JVal :=
  .obj [("mode", .str "video"),
        ("detection", .obj [("risk_level", .str "HIGH"),
                            ("signals", .arr [.str "sig"] [])])]

/-- The same record with an unknown mode value. -/
def oddModeRec : JVal :=
  .obj [("mode", .str "podcast"),
        ("detection", .obj [("risk_level", .str "HIGH"),
                            ("signals", .arr [.str "sig"] [])])]

/-- C8: a history with one `video`/`HIGH` record is counted exactly
under the `File` row's high count (all other cells zero), and a mode
outside the known set contributes to no bucket while the aggregation
still succeeds (no throw). -/
theorem typeDistribution_video_high_file_bucket :
    typeDistributionStats [videoRec] =
      some [("Text", 0, 0, 0), ("File", 1, 0, 0), ("Image", 0, 0, 0)] ∧
    typeDistributionStats [oddModeRec] =
      some [("Text", 0, 0, 0), ("File", 0, 0, 0), ("Image", 0, 0, 0)] :=
  ⟨by rfl, by rfl⟩

/-- The invalid-by-the-spec entry that the load filter nevertheless
keeps: empty `signals`, no `recommendations`, no `humanizer`. -/
def emptySignalsEntry : JVal := .obj [("detection", .obj [("signals", .arr [] [])])]

/-- C4, counterexample: the load filter keeps an entry whose
`detection.signals` is the empty sequence and which lacks
`recommendations` and `humanizer.changes_made` entirely, contradicting
the claimed invariant for kept records. -/
theorem loadHistory_keeps_invalid_cex :
    loadHistory (some "[\x7b\"detection\":\x7b\"signals\":[]\x7d\x7d]") =
      [emptySignalsEntry] ∧
    getProp2 emptySignalsEntry "detection" "signals" = some (.arr [] []) ∧
    hasProp emptySignalsEntry "recommendations" = false ∧
    hasProp emptySignalsEntry "humanizer" = false :=
  ⟨by rfl, by rfl, rfl, rfl⟩

/-- C4 (amended): every entry the history load keeps satisfies exactly
the filter's conditions — a truthy record whose `detection` is a truthy
value of object type and whose `detection.signals` is a sequence
(possibly empty); `recommendations` and `humanizer` are not checked. -/
theorem loadHistory_kept_entries_valid (saved : Option String) (v : JVal)
    (hv : v ∈ loadHistory saved) :
    truthy v = true ∧ ∃ d, getProp v "detection" = some d ∧ truthy d = true ∧
      typeofStr d = "object" ∧ ∃ sg, getProp d "signals" = some sg ∧ isArray sg = true := by
  have hval : validEntry v = true := by
    unfold loadHistory at hv
    cases saved with
    | none => simp at hv
    | some s =>
      by_cases hs : s = ""
      · simp [hs] at hv
      · simp only [hs, if_false, if_neg hs] at hv
        cases hp : jsonParse s with
        | none => rw [hp] at hv; simp at hv
        | some j =>
          rw [hp] at hv
          cases j with
          | arr es ps => exact (List.mem_filter.mp hv).2
          | _ => simp at hv
  unfold validEntry at hval
  rw [Bool.and_eq_true] at hval
  obtain ⟨ht, hrest⟩ := hval
  have hns : nullish v = false := nullish_false_of_truthy ht
  obtain ⟨d, hd⟩ := Option.isSome_iff_exists.mp (getProp_isSome_of_not_nullish "detection" hns)
  refine ⟨ht, d, hd, ?_⟩
  simp only [hd, Option.getD_some, Bool.and_eq_true, decide_eq_true_eq] at hrest
  obtain ⟨⟨htd, hto⟩, hsig⟩ := hrest
  have hnsd : nullish d = false := nullish_false_of_truthy htd
  obtain ⟨sg, hsg⟩ := Option.isSome_iff_exists.mp (getProp_isSome_of_not_nullish "signals" hnsd)
  refine ⟨htd, hto, sg, hsg, ?_⟩
  simpa only [hsg, Option.getD_some] using hsig

/-- Witness for C4's amended theorem: the kept entry of the concrete
blob above satisfies the filter's conditions. -/
theorem loadHistory_kept_entries_valid_witness :
    truthy emptySignalsEntry = true ∧
    ∃ d, getProp emptySignalsEntry "detection" = some d ∧ truthy d = true ∧
      typeofStr d = "object" ∧ ∃ sg, getProp d "signals" = some sg ∧ isArray sg = true :=
  loadHistory_kept_entries_valid
    (some "[\x7b\"detection\":\x7b\"signals\":[]\x7d\x7d]") emptySignalsEntry
    (by rw [show loadHistory (some "[\x7b\"detection\":\x7b\"signals\":[]\x7d\x7d]") =
        [emptySignalsEntry] from by rfl]; exact List.mem_singleton.mpr rfl)

/-- A state displaying a previous result, with one history record. -/
def stA : AppState :=
  ⟨"hi", none, "text", false, false, some (.obj [("k", .num 1)]), [.obj [("h", .num 2)]]⟩

/-- C6, counterexample: on a failed gateway call the alert is surfaced
and `history` is untouched, but the prior `result` is NOT left as it
was — `handleAnalyze` clears it to `null` before fetching and does not
restore it. -/
theorem handleAnalyze_failure_clears_result_cex :
    stA.result = some (.obj [("k", .num 1)]) ∧
    (handleAnalyze stA (.netErr "down") "T").state.result = none ∧
    (handleAnalyze stA (.netErr "down") "T").state.history = stA.history ∧
    (handleAnalyze stA (.netErr "down") "T").alert = some "Analysis failed: down" :=
  ⟨rfl, by rfl, by rfl, by rfl⟩

/-- C6 (amended): whenever an analyze run surfaces a failure alert, the
final state keeps `history` exactly as it was (no partial record is
appended) and differs from the prior state only in `result` — which is
cleared to `null` at the start of the run and not restored — and in the
loading flag ending `false`. -/
theorem handleAnalyze_failure_frame (s : AppState) (f : FetchOutcome) (now : String)
    (halert : (handleAnalyze s f now).alert.isSome = true) :
    (handleAnalyze s f now).state.history = s.history ∧
    (handleAnalyze s f now).state = { s with
      result := none
      isLoading := false } := by
  have main : ∀ (hg1 : (s.activeTab = "text" && jsTrim s.inputText = "") = false)
      (hg2 : (decide (¬ s.activeTab = "text") && s.selectedFile.isNone) = false),
      (handleAnalyze s f now).alert.isSome = true →
      (handleAnalyze s f now).state = { s with
        result := none
        isLoading := false } := by
    intro hg1 hg2 ha
    unfold handleAnalyze at ha ⊢
    rw [if_neg (by rw [hg1]; exact Bool.false_ne_true),
        if_neg (by rw [hg2]; exact Bool.false_ne_true)] at ha ⊢
    cases f with
    | netErr m => rfl
    | resp ok body =>
      cases ok with
      | true =>
        cases body with
        | none => rfl
        | some response =>
          cases hr : reconcileDefaults response with
          | none => simp [hr]
          | some r1 =>
            by_cases htab : s.activeTab = "text"
            · cases h2a : setProp r1 "file_info" (.obj [("name", .jnull), ("type", .str "text"), ("size_bytes", .num s.inputText.length), ("pages", .jnull)]) with
              | none => simp [hr, htab, h2a]
              | some r2 =>
                cases h3a : setProp r2 "mode" (.str "text") with
                | none => simp [hr, htab, h2a, h3a]
                | some r3 =>
                  cases h4a : setProp r3 "timestamp" (.str now) with
                  | none => simp [hr, htab, h2a, h3a, h4a]
                  | some r4 => simp [hr, htab, h2a, h3a, h4a] at ha
            · cases hsel : s.selectedFile with
              | none => simp [hr, htab, hsel]
              | some file =>
                cases h2a : setProp r1 "file_info" (.obj [("name", .str file.name), ("type", .str file.mime), ("size_bytes", .num file.size), ("pages", .jnull)]) with
                | none => simp [hr, htab, hsel, h2a]
                | some r2 =>
                  cases h3a : setProp r2 "mode" (.str s.activeTab) with
                  | none => simp [hr, htab, hsel, h2a, h3a]
                  | some r3 =>
                    cases h4a : setProp r3 "timestamp" (.str now) with
                    | none => simp [hr, htab, hsel, h2a, h3a, h4a]
                    | some r4 => simp [hr, htab, hsel, h2a, h3a, h4a] at ha
      | false =>
        cases hge : getProp (body.getD (JVal.obj [])) "error" with
        | none => simp [hge]
        | some v => simp [hge]
  by_cases htab : s.activeTab = "text"
  · by_cases htrim : jsTrim s.inputText = ""
    · simp [handleAnalyze, htab, htrim] at halert
    · have hg1 : (s.activeTab = "text" && jsTrim s.inputText = "") = false := by
        simp [htab, htrim]
      have hg2 : (decide (¬ s.activeTab = "text") && s.selectedFile.isNone) = false := by
        simp [htab]
      have h := main hg1 hg2 halert
      exact ⟨by rw [h], h⟩
  · cases hsel : s.selectedFile with
    | none => simp [handleAnalyze, htab, hsel] at halert
    | some file =>
      have hg1 : (s.activeTab = "text" && jsTrim s.inputText = "") = false := by
        simp [htab]
      have hg2 : (decide (¬ s.activeTab = "text") && s.selectedFile.isNone) = false := by
        simp [htab, hsel]
      have h := main hg1 hg2 halert
      rw [hsel] at h
      exact ⟨by rw [h], h⟩

/-- Witness for C6's amended theorem at the concrete failing run. -/
theorem handleAnalyze_failure_frame_witness :
    (handleAnalyze stA (.netErr "down") "T").state.history = stA.history ∧
    (handleAnalyze stA (.netErr "down") "T").state = { stA with
      result := none
      isLoading := false } :=
  handleAnalyze_failure_frame stA (.netErr "down") "T" (by rfl)

/-- C9: a successful humanize run replaces only the `humanizer` field of
the displayed result — every other field of the current result keeps its
value — and the history, including the record already prepended for this
scan, is left completely unchanged. -/
theorem handleHumanize_frame (s : AppState) (b : JVal) (fs : List (String × JVal))
    (hres : s.result = some (.obj fs))
    (hgate : ¬(s.activeTab ≠ "text" ∧ s.selectedFile = none))
    (hbody : nullish b = false) :
    (handleHumanize s (.resp true (some b))).state.history = s.history ∧
    ∃ newHum,
      (handleHumanize s (.resp true (some b))).state.result =
        some (.obj (setF fs "humanizer" newHum)) ∧
      ∀ k, k ≠ "humanizer" →
        lookupF (setF fs "humanizer" newHum) k = lookupF fs k := by
  obtain ⟨hv, hgp⟩ := Option.isSome_iff_exists.mp
    (getProp_isSome_of_not_nullish "humanizer" hbody)
  have hg2 : (decide (¬ s.activeTab = "text") && s.selectedFile.isNone) = false := by
    by_cases htab : s.activeTab = "text"
    · simp [htab]
    · cases hsel : s.selectedFile with
      | none => exact absurd ⟨htab, hsel⟩ hgate
      | some file => simp [hsel]
  unfold handleHumanize
  rw [hres]
  simp only [hgp]
  rw [if_neg (by rw [hg2]; exact Bool.false_ne_true)]
  simp only [Bool.not_true, jsSpread, spreadFields]
  refine ⟨rfl, _, rfl, ?_⟩
  intro k hk
  exact lookupF_setF_ne fs "humanizer" k _ hk

/-- Fields of the result displayed before humanizing. -/
def humFields : List (String × JVal) := [("k", .num 1), ("humanizer", .jnull)]

/-- A state displaying that result. -/
def stB : AppState := ⟨"hi", none, "text", false, false, some (.obj humFields), []⟩

/-- A humanize-mode gateway body. -/
def humBody : JVal := .obj [("humanizer", .obj [("humanized_text", .str "better")])]

/-- Witness for C9 at a concrete humanize run. -/
theorem handleHumanize_frame_witness :
    (handleHumanize stB (.resp true (some humBody))).state.history = stB.history ∧
    ∃ newHum,
      (handleHumanize stB (.resp true (some humBody))).state.result =
        some (.obj (setF humFields "humanizer" newHum)) ∧
      ∀ k, k ≠ "humanizer" →
        lookupF (setF humFields "humanizer" newHum) k = lookupF humFields k :=
  handleHumanize_frame stB humBody humFields rfl (fun h => h.1 rfl) rfl

/-! ### Reconciler idempotence (C5) -/

theorem nullishDefault_stable {dflt : JVal} (h : nullish dflt = false) (v : JVal) :
    nullishDefault dflt (nullishDefault dflt v) = nullishDefault dflt v := by
  unfold nullishDefault
  by_cases hv : nullish v = true
  · simp [hv, h]
  · simp at hv
    simp [hv]

theorem falsyDefault_stable (dflt v : JVal) :
    falsyDefault dflt (falsyDefault dflt v) = falsyDefault dflt v := by
  unfold falsyDefault
  by_cases hv : truthy v = true
  · simp [hv]
  · simp at hv
    by_cases hd : truthy dflt = true <;> simp [hv, hd]

/-- A detection field that a re-run of its defaulting line would leave
unchanged: present, and a fixed point of the fix-up function. -/
def FieldFixed (d : JVal) (k : String) (fix : JVal → JVal) : Prop :=
  ∃ v, getProp d k = some v ∧ hasProp d k = true ∧ fix v = v

/-- Invariant of a record's `detection` after the Reconciler ran. -/
def DetNormalized (d : JVal) : Prop :=
  isContainer d = true ∧
  FieldFixed d "risk_score" (nullishDefault (.num 0)) ∧
  FieldFixed d "risk_level" (falsyDefault (.str "LOW")) ∧
  FieldFixed d "summary" (falsyDefault (.str "Analysis completed")) ∧
  FieldFixed d "detailed_analysis" (falsyDefault (.str "No detailed analysis available")) ∧
  FieldFixed d "confidence" (falsyDefault (.str "low")) ∧
  FieldFixed d "is_ai_generated" (nullishDefault (.bool false)) ∧
  FieldFixed d "ai_probability" (nullishDefault (.num 0)) ∧
  FieldFixed d "human_probability" (nullishDefault (.num 1)) ∧
  FieldFixed d "model_suspected" (falsyDefault .jnull) ∧
  (∃ es ps, getProp d "signals" = some (.arr es ps) ∧ es ≠ [])

/-- Invariant of a record after the Reconciler's defaulting block ran:
re-running the block leaves it unchanged. -/
def Normalized (r : JVal) : Prop :=
  isContainer r = true ∧ hasProp r "detection" = true ∧
  (∃ d, getProp r "detection" = some d ∧ DetNormalized d) ∧
  (∃ rv, getProp r "recommendations" = some rv ∧ isArray rv = true) ∧
  (∃ hv, getProp r "humanizer" = some hv ∧ truthy hv = true)

theorem getProp_some_of_container {c : JVal} (k : String)
    (h : isContainer c = true) : ∃ v, getProp c k = some v := by
  cases c with
  | obj fs => exact ⟨_, rfl⟩
  | arr es ps =>
    by_cases hl : k = "length"
    · exact ⟨.num es.length, by simp [getProp, hl]⟩
    · exact ⟨(lookupF ps k).getD .undef, by simp [getProp, hl]⟩
  | _ => simp [isContainer] at h

theorem hasProp_of_truthy_getProp {c : JVal} {k : String} {v : JVal}
    (hk : k ≠ "length") (h : getProp c k = some v) (ht : truthy v = true) :
    hasProp c k = true := by
  cases c with
  | obj fs =>
    simp [getProp] at h
    cases hl : lookupF fs k with
    | none => rw [hl] at h; simp at h; rw [← h] at ht; simp [truthy] at ht
    | some w => simp [hasProp, hl]
  | arr es ps =>
    simp [getProp, hk] at h
    cases hl : lookupF ps k with
    | none => rw [hl] at h; simp at h; rw [← h] at ht; simp [truthy] at ht
    | some w => simp [hasProp, hl]
  | str s =>
    simp [getProp, hk] at h
    rw [← h] at ht
    simp [truthy] at ht
  | bool b => simp [getProp] at h; rw [← h] at ht; simp [truthy] at ht
  | num n => simp [getProp] at h; rw [← h] at ht; simp [truthy] at ht
  | undef => simp [getProp] at h
  | jnull => simp [getProp] at h

theorem ensureDetection_id {r d : JVal}
    (hd : getProp r "detection" = some d) (ht : truthy d = true) :
    ensureDetection r = some r := by
  simp [ensureDetection, hd, ht]

theorem fieldStep_id {r d : JVal} {k : String} {fix : JVal → JVal}
    (hk : k ≠ "length")
    (hd : getProp r "detection" = some d) (hpd : hasProp r "detection" = true)
    (hff : FieldFixed d k fix) : fieldStep k fix r = some r := by
  obtain ⟨v, hv, hp, hfix⟩ := hff
  simp [fieldStep, getProp2, setProp2, hd, hv, hfix,
    setProp_self hk hp hv, setProp_self (by decide) hpd hd]

theorem signalsStep_id {r d : JVal} {es : List JVal} {ps : List (String × JVal)}
    (hd : getProp r "detection" = some d)
    (hsg : getProp d "signals" = some (.arr es ps)) (hne : es ≠ []) :
    signalsStep r = some r := by
  have : es.length ≠ 0 := by simpa using hne
  simp [signalsStep, getProp2, setProp2, hd, hsg, isArray, jarrLen, this]

theorem recsStep_id {r rv : JVal}
    (hv : getProp r "recommendations" = some rv) (ha : isArray rv = true) :
    recsStep r = some r := by
  simp [recsStep, hv, ha]

theorem humanizerStep_id {r hv : JVal}
    (h : getProp r "humanizer" = some hv) (ht : truthy hv = true) :
    humanizerStep r = some r := by
  simp [humanizerStep, h, ht]
/-- On an already-normalized record the Reconciler's defaulting block is
the identity. -/
theorem reconcileDefaults_id {r : JVal} (h : Normalized r) :
    reconcileDefaults r = some r := by
  obtain ⟨hc, hpd, ⟨d, hd, hdc, f1, f2, f3, f4, f5, f6, f7, f8, f9, es, ps, hsg, hne⟩,
    ⟨rv, hrv, hra⟩, ⟨hv, hhv, hht⟩⟩ := h
  rw [reconcileDefaults]
  simp only [Option.bind_eq_bind] at *
  rw [ensureDetection_id hd (truthy_of_container hdc)]
  simp only [Option.some_bind]
  rw [fieldStep_id (by decide) hd hpd f1]
  simp only [Option.some_bind]
  rw [fieldStep_id (by decide) hd hpd f2]
  simp only [Option.some_bind]
  rw [fieldStep_id (by decide) hd hpd f3]
  simp only [Option.some_bind]
  rw [fieldStep_id (by decide) hd hpd f4]
  simp only [Option.some_bind]
  rw [fieldStep_id (by decide) hd hpd f5]
  simp only [Option.some_bind]
  rw [fieldStep_id (by decide) hd hpd f6]
  simp only [Option.some_bind]
  rw [fieldStep_id (by decide) hd hpd f7]
  simp only [Option.some_bind]
  rw [fieldStep_id (by decide) hd hpd f8]
  simp only [Option.some_bind]
  rw [fieldStep_id (by decide) hd hpd f9]
  simp only [Option.some_bind]
  rw [signalsStep_id hd hsg hne]
  simp only [Option.some_bind]
  rw [recsStep_id hrv hra]
  simp only [Option.some_bind]
  exact humanizerStep_id hhv hht

theorem container_of_truthy_getProp {c : JVal} {k : String} {v : JVal}
    (hk : k ≠ "length") (h : getProp c k = some v) (ht : truthy v = true) :
    isContainer c = true := by
  cases c with
  | obj fs => rfl
  | arr es ps => rfl
  | str s => simp [getProp, hk] at h; rw [← h] at ht; simp [truthy] at ht
  | bool b => simp [getProp] at h; rw [← h] at ht; simp [truthy] at ht
  | num n => simp [getProp] at h; rw [← h] at ht; simp [truthy] at ht
  | undef => simp [getProp] at h
  | jnull => simp [getProp] at h

theorem ensureDetection_shape {r0 r1 : JVal} (h : ensureDetection r0 = some r1) :
    isContainer r1 = true ∧ hasProp r1 "detection" = true ∧
    ∃ d, getProp r1 "detection" = some d ∧ truthy d = true := by
  unfold ensureDetection at h
  simp only [Option.bind_eq_bind] at h
  rcases Option.bind_eq_some.mp h with ⟨d0, hd0, h⟩
  by_cases ht : truthy d0 = true
  · simp only [ht, Bool.not_true, Bool.false_eq_true, if_false, pure, Option.some.injEq] at h
    subst h
    exact ⟨container_of_truthy_getProp (by decide) hd0 ht,
      hasProp_of_truthy_getProp (by decide) hd0 ht, d0, hd0, ht⟩
  · simp only [Bool.not_eq_true] at ht
    simp only [ht, Bool.not_false, if_true] at h
    refine ⟨isContainer_of_setProp h, hasProp_setProp_same h,
      clientDefaultDetection, getProp_setProp_same (by decide) h, rfl⟩

theorem fieldStep_shape {r r' : JVal} {k : String} {fix : JVal → JVal}
    (hk : k ≠ "length") (h : fieldStep k fix r = some r') :
    ∃ d d' v, getProp r "detection" = some d ∧ getProp r' "detection" = some d' ∧
      getProp d k = some v ∧
      isContainer r' = true ∧ hasProp r' "detection" = true ∧ isContainer d' = true ∧
      getProp d' k = some (fix v) ∧ hasProp d' k = true ∧
      (∀ k2, k2 ≠ k → getProp d' k2 = getProp d k2) ∧
      (∀ k2, hasProp d k2 = true → hasProp d' k2 = true) := by
  unfold fieldStep getProp2 setProp2 at h
  simp only [Option.bind_eq_bind] at h
  rcases Option.bind_eq_some.mp h with ⟨v, hv1, h⟩
  rcases Option.bind_eq_some.mp hv1 with ⟨d, hd, hdk⟩
  rcases Option.bind_eq_some.mp h with ⟨d2, hd2, h⟩
  rw [hd] at hd2
  injection hd2 with hdd
  subst hdd
  rcases Option.bind_eq_some.mp h with ⟨d1, hd1, h⟩
  exact ⟨d, d1, v, hd, getProp_setProp_same (by decide) h,
    hdk, isContainer_of_setProp h, hasProp_setProp_same h, isContainer_of_setProp hd1,
    getProp_setProp_same hk hd1, hasProp_setProp_same hd1,
    fun k2 hk2 => getProp_setProp_ne hk2 hd1,
    fun k2 hp => hasProp_setProp_preserve hd1 hp⟩

theorem signalsStep_shape {r r' : JVal}
    (hc : isContainer r = true) (h : signalsStep r = some r') :
    ∃ d d', getProp r "detection" = some d ∧ getProp r' "detection" = some d' ∧
      isContainer r' = true ∧
      (hasProp r "detection" = true → hasProp r' "detection" = true) ∧
      (isContainer d = true → isContainer d' = true) ∧
      (∃ es ps, getProp d' "signals" = some (.arr es ps) ∧ es ≠ []) ∧
      (∀ k2, k2 ≠ "signals" → getProp d' k2 = getProp d k2) ∧
      (∀ k2, hasProp d k2 = true → hasProp d' k2 = true) ∧
      (∀ kt, kt ≠ "detection" → getProp r' kt = getProp r kt) ∧
      (∀ kt, hasProp r kt = true → hasProp r' kt = true) := by
  unfold signalsStep getProp2 setProp2 at h
  simp only [Option.bind_eq_bind] at h
  rcases Option.bind_eq_some.mp h with ⟨s, hs1, h⟩
  rcases Option.bind_eq_some.mp hs1 with ⟨d, hd, hds⟩
  by_cases hg : ((!isArray s || jarrLen s == 0) = true)
  · rw [if_pos hg] at h
    rcases Option.bind_eq_some.mp h with ⟨d2, hd2, h⟩
    rw [hd] at hd2
    injection hd2 with hdd
    subst hdd
    rcases Option.bind_eq_some.mp h with ⟨d1, hd1, h⟩
    exact ⟨d, d1, hd, getProp_setProp_same (by decide) h,
      isContainer_of_setProp h,
      fun _ => hasProp_setProp_same h,
      fun _ => isContainer_of_setProp hd1,
      ⟨[.str "No specific signals detected"], [],
        getProp_setProp_same (by decide) hd1, by simp⟩,
      fun k2 hk2 => getProp_setProp_ne hk2 hd1,
      fun k2 hp => hasProp_setProp_preserve hd1 hp,
      fun kt hkt => getProp_setProp_ne hkt h,
      fun kt hp => hasProp_setProp_preserve h hp⟩
  · rw [if_neg hg] at h
    simp only [pure, Option.some.injEq] at h
    subst h
    simp only [Bool.not_eq_true, Bool.or_eq_false_iff] at hg
    obtain ⟨hga, hgb⟩ := hg
    simp only [Bool.not_eq_false'] at hga
    cases s with
    | arr es ps =>
      refine ⟨d, d, hd, hd, hc, fun hp => hp, fun hcd => hcd,
        ⟨es, ps, hds, ?_⟩, fun _ _ => rfl, fun _ hp => hp,
        fun _ _ => rfl, fun _ hp => hp⟩
      intro hemp
      subst hemp
      simp [jarrLen] at hgb
    | _ => simp [isArray] at hga

theorem recsStep_shape {r r' : JVal}
    (hc : isContainer r = true) (h : recsStep r = some r') :
    isContainer r' = true ∧
    (∃ rv, getProp r' "recommendations" = some rv ∧ isArray rv = true) ∧
    (∀ kt, kt ≠ "recommendations" → getProp r' kt = getProp r kt) ∧
    (∀ kt, hasProp r kt = true → hasProp r' kt = true) := by
  unfold recsStep at h
  simp only [Option.bind_eq_bind] at h
  rcases Option.bind_eq_some.mp h with ⟨rv, hrv, h⟩
  by_cases hg : ((!isArray rv) = true)
  · rw [if_pos hg] at h
    exact ⟨isContainer_of_setProp h,
      ⟨.arr [.str "Review manually", .str "Consider context"] [],
        getProp_setProp_same (by decide) h, rfl⟩,
      fun kt hkt => getProp_setProp_ne hkt h,
      fun kt hp => hasProp_setProp_preserve h hp⟩
  · rw [if_neg hg] at h
    simp only [pure, Option.some.injEq] at h
    subst h
    simp only [Bool.not_eq_true, Bool.not_eq_false'] at hg
    exact ⟨hc, ⟨rv, hrv, hg⟩, fun _ _ => rfl, fun _ hp => hp⟩

theorem humanizerStep_shape {r r' : JVal}
    (hc : isContainer r = true) (h : humanizerStep r = some r') :
    isContainer r' = true ∧
    (∃ hv, getProp r' "humanizer" = some hv ∧ truthy hv = true) ∧
    (∀ kt, kt ≠ "humanizer" → getProp r' kt = getProp r kt) ∧
    (∀ kt, hasProp r kt = true → hasProp r' kt = true) := by
  unfold humanizerStep at h
  simp only [Option.bind_eq_bind] at h
  rcases Option.bind_eq_some.mp h with ⟨hv, hhv, h⟩
  by_cases hg : ((!truthy hv) = true)
  · rw [if_pos hg] at h
    exact ⟨isContainer_of_setProp h,
      ⟨_, getProp_setProp_same (by decide) h, rfl⟩,
      fun kt hkt => getProp_setProp_ne hkt h,
      fun kt hp => hasProp_setProp_preserve h hp⟩
  · rw [if_neg hg] at h
    simp only [pure, Option.some.injEq] at h
    subst h
    simp only [Bool.not_eq_true, Bool.not_eq_false'] at hg
    exact ⟨hc, ⟨hv, hhv, hg⟩, fun _ _ => rfl, fun _ hp => hp⟩

theorem FieldFixed_transfer {d d' : JVal} {k' : String} {fix' : JVal → JVal}
    (hval : getProp d' k' = getProp d k')
    (hhp : ∀ k2, hasProp d k2 = true → hasProp d' k2 = true)
    (hff : FieldFixed d k' fix') : FieldFixed d' k' fix' := by
  obtain ⟨v, h1, h2, h3⟩ := hff
  exact ⟨v, hval ▸ h1, hhp _ h2, h3⟩

/-- The Reconciler's defaulting block establishes the `Normalized`
invariant whenever it succeeds. -/
theorem reconcileDefaults_normalized {r0 r : JVal}
    (h : reconcileDefaults r0 = some r) : Normalized r := by
  rw [reconcileDefaults] at h
  simp only [Option.bind_eq_bind] at h
  rcases Option.bind_eq_some.mp h with ⟨r1, h1, h⟩
  rcases Option.bind_eq_some.mp h with ⟨r2, h2, h⟩
  rcases Option.bind_eq_some.mp h with ⟨r3, h3, h⟩
  rcases Option.bind_eq_some.mp h with ⟨r4, h4, h⟩
  rcases Option.bind_eq_some.mp h with ⟨r5, h5, h⟩
  rcases Option.bind_eq_some.mp h with ⟨r6, h6, h⟩
  rcases Option.bind_eq_some.mp h with ⟨r7, h7, h⟩
  rcases Option.bind_eq_some.mp h with ⟨r8, h8, h⟩
  rcases Option.bind_eq_some.mp h with ⟨r9, h9, h⟩
  rcases Option.bind_eq_some.mp h with ⟨r10, h10, h⟩
  rcases Option.bind_eq_some.mp h with ⟨r11, h11, h⟩
  rcases Option.bind_eq_some.mp h with ⟨r12, h12, h⟩
  obtain ⟨hc, hp, d0, hd, ht⟩ := ensureDetection_shape h1
  obtain ⟨e, d1, v, hed, hdn, hv, hcn, hpn, hdcn, hg, hgp, hpr, hhp⟩ :=
    fieldStep_shape (by decide) h2
  rw [hd] at hed
  injection hed with he
  subst he
  have F1 : FieldFixed d1 "risk_score" (nullishDefault (.num 0)) := ⟨_, hg, hgp, nullishDefault_stable (by rfl) _⟩
  clear hd hv hg hgp hpr hhp hc hp
  have hd := hdn
  have hc := hcn
  have hp := hpn
  have hdc := hdcn
  clear hdn hcn hpn hdcn
  obtain ⟨e, d2, v, hed, hdn, hv, hcn, hpn, hdcn, hg, hgp, hpr, hhp⟩ :=
    fieldStep_shape (by decide) h3
  rw [hd] at hed
  injection hed with he
  subst he
  have F1 := FieldFixed_transfer (hpr _ (by decide)) hhp F1
  have F2 : FieldFixed d2 "risk_level" (falsyDefault (.str "LOW")) := ⟨_, hg, hgp, falsyDefault_stable _ _⟩
  clear hd hv hg hgp hpr hhp hc hp
  have hd := hdn
  have hc := hcn
  have hp := hpn
  have hdc := hdcn
  clear hdn hcn hpn hdcn
  obtain ⟨e, d3, v, hed, hdn, hv, hcn, hpn, hdcn, hg, hgp, hpr, hhp⟩ :=
    fieldStep_shape (by decide) h4
  rw [hd] at hed
  injection hed with he
  subst he
  have F1 := FieldFixed_transfer (hpr _ (by decide)) hhp F1
  have F2 := FieldFixed_transfer (hpr _ (by decide)) hhp F2
  have F3 : FieldFixed d3 "summary" (falsyDefault (.str "Analysis completed")) := ⟨_, hg, hgp, falsyDefault_stable _ _⟩
  clear hd hv hg hgp hpr hhp hc hp
  have hd := hdn
  have hc := hcn
  have hp := hpn
  have hdc := hdcn
  clear hdn hcn hpn hdcn
  obtain ⟨e, d4, v, hed, hdn, hv, hcn, hpn, hdcn, hg, hgp, hpr, hhp⟩ :=
    fieldStep_shape (by decide) h5
  rw [hd] at hed
  injection hed with he
  subst he
  have F1 := FieldFixed_transfer (hpr _ (by decide)) hhp F1
  have F2 := FieldFixed_transfer (hpr _ (by decide)) hhp F2
  have F3 := FieldFixed_transfer (hpr _ (by decide)) hhp F3
  have F4 : FieldFixed d4 "detailed_analysis" (falsyDefault (.str "No detailed analysis available")) := ⟨_, hg, hgp, falsyDefault_stable _ _⟩
  clear hd hv hg hgp hpr hhp hc hp
  have hd := hdn
  have hc := hcn
  have hp := hpn
  have hdc := hdcn
  clear hdn hcn hpn hdcn
  obtain ⟨e, d5, v, hed, hdn, hv, hcn, hpn, hdcn, hg, hgp, hpr, hhp⟩ :=
    fieldStep_shape (by decide) h6
  rw [hd] at hed
  injection hed with he
  subst he
  have F1 := FieldFixed_transfer (hpr _ (by decide)) hhp F1
  have F2 := FieldFixed_transfer (hpr _ (by decide)) hhp F2
  have F3 := FieldFixed_transfer (hpr _ (by decide)) hhp F3
  have F4 := FieldFixed_transfer (hpr _ (by decide)) hhp F4
  have F5 : FieldFixed d5 "confidence" (falsyDefault (.str "low")) := ⟨_, hg, hgp, falsyDefault_stable _ _⟩
  clear hd hv hg hgp hpr hhp hc hp
  have hd := hdn
  have hc := hcn
  have hp := hpn
  have hdc := hdcn
  clear hdn hcn hpn hdcn
  obtain ⟨e, d6, v, hed, hdn, hv, hcn, hpn, hdcn, hg, hgp, hpr, hhp⟩ :=
    fieldStep_shape (by decide) h7
  rw [hd] at hed
  injection hed with he
  subst he
  have F1 := FieldFixed_transfer (hpr _ (by decide)) hhp F1
  have F2 := FieldFixed_transfer (hpr _ (by decide)) hhp F2
  have F3 := FieldFixed_transfer (hpr _ (by decide)) hhp F3
  have F4 := FieldFixed_transfer (hpr _ (by decide)) hhp F4
  have F5 := FieldFixed_transfer (hpr _ (by decide)) hhp F5
  have F6 : FieldFixed d6 "is_ai_generated" (nullishDefault (.bool false)) := ⟨_, hg, hgp, nullishDefault_stable (by rfl) _⟩
  clear hd hv hg hgp hpr hhp hc hp
  have hd := hdn
  have hc := hcn
  have hp := hpn
  have hdc := hdcn
  clear hdn hcn hpn hdcn
  obtain ⟨e, d7, v, hed, hdn, hv, hcn, hpn, hdcn, hg, hgp, hpr, hhp⟩ :=
    fieldStep_shape (by decide) h8
  rw [hd] at hed
  injection hed with he
  subst he
  have F1 := FieldFixed_transfer (hpr _ (by decide)) hhp F1
  have F2 := FieldFixed_transfer (hpr _ (by decide)) hhp F2
  have F3 := FieldFixed_transfer (hpr _ (by decide)) hhp F3
  have F4 := FieldFixed_transfer (hpr _ (by decide)) hhp F4
  have F5 := FieldFixed_transfer (hpr _ (by decide)) hhp F5
  have F6 := FieldFixed_transfer (hpr _ (by decide)) hhp F6
  have F7 : FieldFixed d7 "ai_probability" (nullishDefault (.num 0)) := ⟨_, hg, hgp, nullishDefault_stable (by rfl) _⟩
  clear hd hv hg hgp hpr hhp hc hp
  have hd := hdn
  have hc := hcn
  have hp := hpn
  have hdc := hdcn
  clear hdn hcn hpn hdcn
  obtain ⟨e, d8, v, hed, hdn, hv, hcn, hpn, hdcn, hg, hgp, hpr, hhp⟩ :=
    fieldStep_shape (by decide) h9
  rw [hd] at hed
  injection hed with he
  subst he
  have F1 := FieldFixed_transfer (hpr _ (by decide)) hhp F1
  have F2 := FieldFixed_transfer (hpr _ (by decide)) hhp F2
  have F3 := FieldFixed_transfer (hpr _ (by decide)) hhp F3
  have F4 := FieldFixed_transfer (hpr _ (by decide)) hhp F4
  have F5 := FieldFixed_transfer (hpr _ (by decide)) hhp F5
  have F6 := FieldFixed_transfer (hpr _ (by decide)) hhp F6
  have F7 := FieldFixed_transfer (hpr _ (by decide)) hhp F7
  have F8 : FieldFixed d8 "human_probability" (nullishDefault (.num 1)) := ⟨_, hg, hgp, nullishDefault_stable (by rfl) _⟩
  clear hd hv hg hgp hpr hhp hc hp
  have hd := hdn
  have hc := hcn
  have hp := hpn
  have hdc := hdcn
  clear hdn hcn hpn hdcn
  obtain ⟨e, d9, v, hed, hdn, hv, hcn, hpn, hdcn, hg, hgp, hpr, hhp⟩ :=
    fieldStep_shape (by decide) h10
  rw [hd] at hed
  injection hed with he
  subst he
  have F1 := FieldFixed_transfer (hpr _ (by decide)) hhp F1
  have F2 := FieldFixed_transfer (hpr _ (by decide)) hhp F2
  have F3 := FieldFixed_transfer (hpr _ (by decide)) hhp F3
  have F4 := FieldFixed_transfer (hpr _ (by decide)) hhp F4
  have F5 := FieldFixed_transfer (hpr _ (by decide)) hhp F5
  have F6 := FieldFixed_transfer (hpr _ (by decide)) hhp F6
  have F7 := FieldFixed_transfer (hpr _ (by decide)) hhp F7
  have F8 := FieldFixed_transfer (hpr _ (by decide)) hhp F8
  have F9 : FieldFixed d9 "model_suspected" (falsyDefault .jnull) := ⟨_, hg, hgp, falsyDefault_stable _ _⟩
  clear hd hv hg hgp hpr hhp hc hp
  have hd := hdn
  have hc := hcn
  have hp := hpn
  have hdc := hdcn
  clear hdn hcn hpn hdcn
  obtain ⟨e, dS, hed, hdn, hcn, hpn, hdcn, sigF, hpr, hhp, rpr, rhp⟩ :=
    signalsStep_shape hc h11
  rw [hd] at hed
  injection hed with he
  subst he
  have F1 := FieldFixed_transfer (hpr _ (by decide)) hhp F1
  have F2 := FieldFixed_transfer (hpr _ (by decide)) hhp F2
  have F3 := FieldFixed_transfer (hpr _ (by decide)) hhp F3
  have F4 := FieldFixed_transfer (hpr _ (by decide)) hhp F4
  have F5 := FieldFixed_transfer (hpr _ (by decide)) hhp F5
  have F6 := FieldFixed_transfer (hpr _ (by decide)) hhp F6
  have F7 := FieldFixed_transfer (hpr _ (by decide)) hhp F7
  have F8 := FieldFixed_transfer (hpr _ (by decide)) hhp F8
  have F9 := FieldFixed_transfer (hpr _ (by decide)) hhp F9
  have hdc2 := hdcn hdc
  have hp2 := hpn hp
  obtain ⟨hcr, recsF, rprR, rhpR⟩ := recsStep_shape hcn h12
  have hdR : getProp r12 "detection" = some dS := by
    rw [rprR "detection" (by decide)]
    exact hdn
  have hpR := rhpR _ hp2
  obtain ⟨hcH, humF, rprH, rhpH⟩ := humanizerStep_shape hcr h
  have hdH : getProp r "detection" = some dS := by
    rw [rprH "detection" (by decide)]
    exact hdR
  have hpH := rhpH _ hpR
  obtain ⟨rv, hrv, hra⟩ := recsF
  have hrvH : getProp r "recommendations" = some rv := by
    rw [rprH "recommendations" (by decide)]
    exact hrv
  exact ⟨hcH, hpH, ⟨dS, hdH, hdc2, F1, F2, F3, F4, F5, F6, F7, F8, F9, sigF⟩,
    ⟨rv, hrvH, hra⟩, humF⟩

/-- C5: the Reconciler's defaulting block is idempotent — running it on
its own output (when it succeeded, including the throw-propagation of
the `Option`) changes nothing — and on any already-normalized record it
is the identity. -/
theorem reconcileDefaults_idempotent :
    (∀ r0 : JVal, (reconcileDefaults r0).bind reconcileDefaults = reconcileDefaults r0) ∧
    (∀ r : JVal, Normalized r → reconcileDefaults r = some r) := by
  refine ⟨?_, fun r h => reconcileDefaults_id h⟩
  intro r0
  cases h : reconcileDefaults r0 with
  | none => rfl
  | some r =>
    simpa using reconcileDefaults_id (reconcileDefaults_normalized h)

/-- The record the Reconciler produces from an empty response object. -/
def fullDefaultRecord : JVal :=
  .obj [("detection", .obj
          [("risk_score", .num 0),
           ("risk_level", .str "LOW"),
           ("summary", .str "Analysis incomplete."),
           ("detailed_analysis", .str "No details returned."),
           ("signals", .arr [.str "No specific signals detected"] []),
           ("is_ai_generated", .bool false),
           ("ai_probability", .num 0),
           ("human_probability", .num 1),
           ("confidence", .str "low"),
           ("model_suspected", .jnull)]),
        ("recommendations", .arr [.str "Review manually", .str "Consider context"] []),
        ("humanizer", .obj
          [("requested", .bool false),
           ("humanized_text", .jnull),
           ("changes_made", .arr [] []),
           ("improvement_score", .num 0),
           ("notes", .jnull)])]

/-- Witness for C5 at concrete records: the empty response object, and
the fully-defaulted record it produces. -/
theorem reconcileDefaults_idempotent_witness :
    (reconcileDefaults (.obj [])).bind reconcileDefaults = reconcileDefaults (.obj []) ∧
    reconcileDefaults fullDefaultRecord = some fullDefaultRecord :=
  ⟨reconcileDefaults_idempotent.1 (.obj []),
   reconcileDefaults_idempotent.2 fullDefaultRecord
     (reconcileDefaults_normalized
       (show reconcileDefaults (.obj []) = some fullDefaultRecord from by rfl))⟩

/-- C3, counterexample: a model reply whose `detection.signals` is the
empty array passes through the gateway's post-processing unchanged — the
200 response body still has `signals` of length 0, because the gateway
replaces `signals` only when it is not an array at all. -/
theorem gateway_keeps_empty_signals_cex :
    (handler "key" textReq
      (fun _ _ => .ok "\x7b\"detection\":\x7b\"signals\":[]\x7d\x7d")).status = 200 ∧
    getProp2 (handler "key" textReq
      (fun _ _ => .ok "\x7b\"detection\":\x7b\"signals\":[]\x7d\x7d")).body
      "detection" "signals" = some (.arr [] []) :=
  ⟨by rfl, by rfl⟩

/-- C3 (amended): after the client Reconciler's defaulting,
`detection.signals` is an array of length at least 1 (an empty one is
replaced by the one-element default); the gateway's post-processing
guarantees only that `signals` is an array — an empty array is kept
as-is. -/
theorem signals_after_normalization :
    (∀ r0 r : JVal, reconcileDefaults r0 = some r →
      ∃ d es ps, getProp r "detection" = some d ∧
        getProp d "signals" = some (.arr es ps) ∧ es.length ≥ 1) ∧
    (∀ d0 r : JVal, gatewayNormalize d0 = some r →
      ∃ d sg, getProp r "detection" = some d ∧
        getProp d "signals" = some sg ∧ isArray sg = true) := by
  constructor
  · intro r0 r h
    obtain ⟨-, -, ⟨d, hd, -, -, -, -, -, -, -, -, -, -, es, ps, hsg, hne⟩, -, -⟩ :=
      reconcileDefaults_normalized h
    exact ⟨d, es, ps, hd, hsg, by
      cases es with
      | nil => exact absurd rfl hne
      | cons a t => simp⟩
  · intro d0 r h
    unfold gatewayNormalize getProp2 setProp2 at h
    simp only [Option.bind_eq_bind] at h
    rcases Option.bind_eq_some.mp h with ⟨data2, hdata2, h⟩
    rcases Option.bind_eq_some.mp h with ⟨rs, hrs, h⟩
    rcases Option.bind_eq_some.mp h with ⟨data3, hdata3, h⟩
    rcases Option.bind_eq_some.mp h with ⟨rl, hrl, h⟩
    rcases Option.bind_eq_some.mp h with ⟨data4, hdata4, h⟩
    rcases Option.bind_eq_some.mp h with ⟨sm, hsm, h⟩
    rcases Option.bind_eq_some.mp h with ⟨data5, hdata5, h⟩
    rcases Option.bind_eq_some.mp h with ⟨sg, hsg, h⟩
    by_cases hg : ((!isArray sg) = true)
    · rw [if_pos hg] at h
      rcases Option.bind_eq_some.mp h with ⟨d5, hd5, h⟩
      rcases Option.bind_eq_some.mp h with ⟨d6, hd6, h⟩
      exact ⟨d6, .arr [.str "No specific signals detected."] [],
        getProp_setProp_same (by decide) h,
        getProp_setProp_same (by decide) hd6, rfl⟩
    · rw [if_neg hg] at h
      simp only [pure, Option.some.injEq] at h
      subst h
      rcases Option.bind_eq_some.mp hsg with ⟨d5, hd5, hds⟩
      simp only [Bool.not_eq_true, Bool.not_eq_false'] at hg
      exact ⟨d5, sg, hd5, hds, hg⟩

/-- Witness for C3's amended theorem at concrete inputs. -/
theorem signals_after_normalization_witness :
    (∃ d es ps, getProp fullDefaultRecord "detection" = some d ∧
      getProp d "signals" = some (.arr es ps) ∧ es.length ≥ 1) ∧
    (∃ d sg, getProp (JVal.obj [("detection", .obj
        [("risk_score", .num 0), ("risk_level", .str "LOW"),
         ("summary", .str "Analysis completed."),
         ("signals", .arr [.str "No specific signals detected."] [])])])
        "detection" = some d ∧
      getProp d "signals" = some sg ∧ isArray sg = true) :=
  ⟨signals_after_normalization.1 (.obj []) fullDefaultRecord (by rfl),
   signals_after_normalization.2 (.obj []) _ (by rfl)⟩

/-! ### Persistence round-trip (C7) -/

mutual
/-- JSON-representable values: no `undefined` anywhere and no extra
array properties — exactly what `JSON.parse` of a wire body can produce
and what the Reconciler stores for object-shaped detections. -/
def canonVal : JVal → Bool
  | .undef => false
  | .jnull => true
  | .bool _ => true
  | .num _ => true
  | .str _ => true
  | .arr es ps => ps.isEmpty && canonElems es
  | .obj fs => canonMembers fs

def canonElems : List JVal → Bool
  | [] => true
  | v :: rest => canonVal v && canonElems rest

def canonMembers : List (String × JVal) → Bool
  | [] => true
  | (_, v) :: rest => canonVal v && canonMembers rest
end

theorem canonElems_of_forall {es : List JVal}
    (h : ∀ v ∈ es, canonVal v = true) : canonElems es = true := by
  induction es with
  | nil => rfl
  | cons v rest ih =>
    rw [canonElems, Bool.and_eq_true]
    exact ⟨h v (by simp), ih fun w hw => h w (by simp [hw])⟩

theorem skipWs_cons {c : Char} {t : List Char} (h : isWsChar c = false) :
    skipWs (c :: t) = c :: t := by
  rw [skipWs, h]
  simp

theorem stringMk_data (s : String) : String.mk s.data = s := rfl

/-- The decoded body of a printed JSON string literal is the original
string. -/
theorem parseStrBody_roundtrip (s : List Char) (rest : List Char) :
    parseStrBody (escStr s ++ '"' :: rest) = some (s, rest) := by
  induction s with
  | nil =>
    show parseStrBody ('"' :: rest) = some ([], rest)
    rw [parseStrBody.eq_def]
    simp
  | cons c t ih =>
    have hexp : escStr (c :: t) = escChar c ++ escStr t := by
      rw [escStr, escStr, List.flatMap_cons]
    by_cases h1 : c = '"'
    · subst h1
      rw [hexp]
      show parseStrBody ('\\' :: '"' :: (escStr t ++ '"' :: rest)) = _
      rw [parseStrBody.eq_def]
      simp [unescChar, ih]
    · by_cases h2 : c = '\\'
      · subst h2
        rw [hexp]
        show parseStrBody ('\\' :: '\\' :: (escStr t ++ '"' :: rest)) = _
        rw [parseStrBody.eq_def]
        simp [unescChar, ih]
      · have hesc : escChar c = [c] := by
          simp [escChar, h1, h2]
        rw [hexp, hesc]
        show parseStrBody (c :: (escStr t ++ '"' :: rest)) = _
        rw [parseStrBody.eq_def]
        simp [h1, h2, ih]

theorem isDigitChar_digitChar (d : Nat) : isDigitChar (digitChar d) = true := by
  unfold digitChar
  split
  · decide
  all_goals split
  all_goals try decide
  all_goals split
  all_goals try decide
  all_goals split
  all_goals try decide
  all_goals split
  all_goals try decide
  all_goals split
  all_goals try decide
  all_goals split
  all_goals try decide
  all_goals split
  all_goals try decide
  all_goals split
  all_goals decide

theorem digitVal_digitChar {d : Nat} (h : d < 10) : digitVal (digitChar d) = d := by
  interval_cases d <;> decide

/-- Most-significant-first decimal digit characters via `Nat.digits`
(the proof-side view of `natChars`). -/
def digitsChars (m : Nat) : List Char :=
  if m = 0 then ['0'] else ((Nat.digits 10 m).reverse).map digitChar

theorem natCharsAux_eq (m : Nat) :
    ∀ fuel acc, m < fuel → natCharsAux fuel m acc = digitsChars m ++ acc := by
  induction m using Nat.strong_induction_on with
  | _ m ih =>
    intro fuel acc hf
    cases fuel with
    | zero => omega
    | succ f =>
      rw [natCharsAux]
      by_cases hsmall : m < 10
      · rw [if_pos hsmall]
        by_cases h0 : m = 0
        · subst h0
          simp [digitsChars]
          decide
        · have hd : Nat.digits 10 m = [m] := by
            rw [ Nat.digits_def' (by norm_num : (1:Nat) < 10) (by omega)]
            rw [Nat.mod_eq_of_lt hsmall, Nat.div_eq_of_lt hsmall]
            simp
          simp [digitsChars, h0, hd]
      · rw [if_neg hsmall]
        have hdiv : m / 10 < m := Nat.div_lt_self (by omega) (by norm_num)
        rw [ih (m / 10) hdiv f _ (by omega)]
        have hm0 : m ≠ 0 := by omega
        have hd : Nat.digits 10 m = m % 10 :: Nat.digits 10 (m / 10) := by
          rw [ Nat.digits_def' (by norm_num : (1:Nat) < 10) (by omega)]
        have hq0 : m / 10 ≠ 0 := by
          have := Nat.div_pos (by omega : 10 ≤ m) (by norm_num : 0 < 10)
          omega
        simp [digitsChars, hm0, hq0, hd, List.reverse_cons]

theorem natChars_eq (m : Nat) : natChars m = digitsChars m := by
  rw [natChars, natCharsAux_eq m (m + 1) [] (by omega)]
  simp

/-- Whether the remaining input starts with a decimal digit (numeral
parsing is greedy; all printed continuations avoid this). -/
def headNotDigit : List Char → Bool
  | [] => true
  | c :: _ => !isDigitChar c

theorem takeDigits_append {ds rest : List Char}
    (hds : ∀ c ∈ ds, isDigitChar c = true) (hrest : headNotDigit rest = true) :
    takeDigits (ds ++ rest) = (ds, rest) := by
  induction ds with
  | nil =>
    cases rest with
    | nil => rfl
    | cons c t =>
      simp only [headNotDigit, Bool.not_eq_true'] at hrest
      simp [takeDigits, hrest]
  | cons c ds ih =>
    have hc := hds c (by simp)
    rw [List.cons_append, takeDigits.eq_def]
    simp only [hc, if_true]
    rw [ih fun x hx => hds x (by simp [hx])]

theorem foldl_digits_reverse (L : List Nat) (a : Nat) :
    List.foldl (fun x d => 10 * x + d) a L.reverse =
      a * 10 ^ L.length + Nat.ofDigits 10 L := by
  induction L generalizing a with
  | nil => simp [Nat.ofDigits]
  | cons d t ih =>
    rw [List.reverse_cons, List.foldl_append, ih]
    simp only [List.foldl_cons, List.foldl_nil, Nat.ofDigits_cons, List.length_cons]
    ring

theorem digitsToNat_natChars (m : Nat) : digitsToNat (natChars m) = m := by
  rw [natChars_eq]
  by_cases h0 : m = 0
  · subst h0
    rfl
  · rw [digitsChars, if_neg h0]
    unfold digitsToNat
    rw [List.foldl_map]
    have hcong : List.foldl (fun a c => 10 * a + digitVal (digitChar c)) 0
        (Nat.digits 10 m).reverse =
        List.foldl (fun a d => 10 * a + d) 0 (Nat.digits 10 m).reverse := by
      apply List.foldl_ext
      intro a b hb
      rw [digitVal_digitChar]
      exact Nat.digits_lt_base (by norm_num) (List.mem_reverse.mp hb)
    rw [hcong, foldl_digits_reverse]
    simp [Nat.ofDigits_digits]

theorem natChars_digits (m : Nat) : ∀ c ∈ natChars m, isDigitChar c = true := by
  rw [natChars_eq]
  intro c hc
  by_cases h0 : m = 0
  · subst h0
    simp [digitsChars] at hc
    subst hc
    decide
  · rw [digitsChars, if_neg h0] at hc
    obtain ⟨d, -, rfl⟩ := List.mem_map.mp hc
    exact isDigitChar_digitChar d

theorem natChars_ne_nil (m : Nat) : natChars m ≠ [] := by
  rw [natChars_eq]
  by_cases h0 : m = 0
  · subst h0
    simp [digitsChars]
  · rw [digitsChars, if_neg h0]
    simp [Nat.digits_ne_nil_iff_ne_zero, h0]

theorem digit_char_class {c : Char} (hc : isDigitChar c = true) :
    isWsChar c = false ∧ c ≠ '"' ∧ c ≠ '[' ∧ c ≠ '\x7b' ∧ c ≠ 't' ∧ c ≠ 'f' ∧
    c ≠ 'n' ∧ c ≠ '-' ∧ c ≠ ']' ∧ c ≠ '\x7d' := by
  simp only [isDigitChar, decide_eq_true_eq] at hc
  rcases hc with rfl | rfl | rfl | rfl | rfl | rfl | rfl | rfl | rfl | rfl <;>
    exact (by decide)

theorem parseNum_intChars (n : Int) (rest : List Char)
    (hrest : headNotDigit rest = true) :
    parseNum (intChars n ++ rest) = some (.num n, rest) := by
  by_cases hneg : n < 0
  · rw [intChars, if_pos hneg, List.cons_append, parseNum.eq_def]
    obtain ⟨c, t, hct⟩ := List.exists_cons_of_ne_nil (natChars_ne_nil n.natAbs)
    have htd := takeDigits_append (natChars_digits n.natAbs) hrest
    have hval : digitsToNat (natChars n.natAbs) = n.natAbs := digitsToNat_natChars _
    have hn : -((n.natAbs : Int)) = n := by omega
    rw [hct]
    rw [hct, List.cons_append] at htd
    rw [hct] at hval
    simp [htd, hval, hn]
    all_goals simp [abs_of_neg hneg]
  · rw [intChars, if_neg hneg]
    obtain ⟨c, t, hct⟩ := List.exists_cons_of_ne_nil (natChars_ne_nil n.toNat)
    have hdig : isDigitChar c = true := by
      apply natChars_digits n.toNat
      rw [hct]
      simp
    have hcm : c ≠ '-' := (digit_char_class hdig).2.2.2.2.2.2.2.1
    have htd := takeDigits_append (natChars_digits n.toNat) hrest
    have hval : digitsToNat (natChars n.toNat) = n.toNat := digitsToNat_natChars _
    have hn : ((n.toNat : Int)) = n := by omega
    rw [hct, List.cons_append, parseNum.eq_def]
    rw [hct, List.cons_append] at htd
    rw [hct] at hval
    simp [hcm, htd, hval, hn]

theorem isUndef_false_of_canon {v : JVal} (hc : canonVal v = true) :
    isUndef v = false := by
  cases v <;> simp_all [canonVal, isUndef]

theorem printVal_head (v : JVal) :
    ∃ c t, printVal v = c :: t ∧ isWsChar c = false ∧ c ≠ ']' ∧ c ≠ '\x7d' := by
  cases v with
  | undef => exact ⟨'n', _, rfl, by decide, by decide, by decide⟩
  | jnull => exact ⟨'n', _, rfl, by decide, by decide, by decide⟩
  | bool b =>
    cases b
    · exact ⟨'f', _, rfl, by decide, by decide, by decide⟩
    · exact ⟨'t', _, rfl, by decide, by decide, by decide⟩
  | str s => exact ⟨'"', _, rfl, by decide, by decide, by decide⟩
  | arr es ps => exact ⟨'[', _, rfl, by decide, by decide, by decide⟩
  | obj fs => exact ⟨'\x7b', _, rfl, by decide, by decide, by decide⟩
  | num n =>
    show ∃ c t, intChars n = c :: t ∧ _
    by_cases hneg : n < 0
    · exact ⟨'-', natChars n.natAbs, by rw [intChars, if_pos hneg],
        by decide, by decide, by decide⟩
    · obtain ⟨c, t, hct⟩ := List.exists_cons_of_ne_nil (natChars_ne_nil n.toNat)
      have hdig : isDigitChar c = true := by
        apply natChars_digits n.toNat
        rw [hct]
        simp
      obtain ⟨hws, -, -, -, -, -, -, -, hbr, hbc⟩ := digit_char_class hdig
      exact ⟨c, t, by rw [intChars, if_neg hneg, hct], hws, hbr, hbc⟩

theorem printMembers_head {fs : List (String × JVal)} (hne : fs ≠ [])
    (hc : canonMembers fs = true) : ∃ t, printMembers fs = '"' :: t := by
  cases fs with
  | nil => exact absurd rfl hne
  | cons kv rest =>
    obtain ⟨k, v⟩ := kv
    rw [canonMembers, Bool.and_eq_true] at hc
    rw [printMembers.eq_def]
    simp only [isUndef_false_of_canon hc.1]
    exact ⟨_, rfl⟩

mutual
theorem jsize_le_plen_val (v : JVal) (hc : canonVal v = true) :
    jsizeVal v ≤ (printVal v).length := by
  cases v with
  | undef => simp [canonVal] at hc
  | jnull => simp [jsizeVal, printVal]
  | bool b => cases b <;> simp [jsizeVal, printVal]
  | num n =>
    have h1 : (intChars n).length ≥ 1 := by
      rw [intChars]
      by_cases hneg : n < 0
      · simp [hneg]
      · rw [if_neg hneg]
        obtain ⟨c, t, hct⟩ := List.exists_cons_of_ne_nil (natChars_ne_nil n.toNat)
        rw [hct]
        simp
    simpa [jsizeVal, printVal] using h1
  | str s => simp [jsizeVal, printVal]
  | arr es ps =>
    rw [canonVal, Bool.and_eq_true] at hc
    have := jsize_le_plen_elems es hc.2
    simp only [jsizeVal, printVal, List.length_cons, List.length_append]
    omega
  | obj fs =>
    have := jsize_le_plen_members fs hc
    simp only [jsizeVal, printVal, List.length_cons, List.length_append]
    omega

theorem jsize_le_plen_elems (es : List JVal) (hc : canonElems es = true) :
    jsizeElems es ≤ 1 + (printElems es).length := by
  cases es with
  | nil => simp [jsizeElems, printElems]
  | cons v rest =>
    rw [canonElems, Bool.and_eq_true] at hc
    cases rest with
    | nil =>
      have := jsize_le_plen_val v hc.1
      simp only [jsizeElems, printElems]
      omega
    | cons w rest2 =>
      have h1 := jsize_le_plen_val v hc.1
      have h2 := jsize_le_plen_elems (w :: rest2) hc.2
      simp only [jsizeElems, printElems, List.length_append, List.length_cons] at *
      omega

theorem jsize_le_plen_members (fs : List (String × JVal)) (hc : canonMembers fs = true) :
    jsizeMembers fs ≤ 1 + (printMembers fs).length := by
  cases fs with
  | nil => simp [jsizeMembers, printMembers]
  | cons kv rest =>
    obtain ⟨k, v⟩ := kv
    rw [canonMembers, Bool.and_eq_true] at hc
    have h1 := jsize_le_plen_val v hc.1
    have h2 := jsize_le_plen_members rest hc.2
    rw [printMembers.eq_def]
    simp only [isUndef_false_of_canon hc.1, if_false, Bool.false_eq_true]
    by_cases ht : printMembers rest = []
    · have hr0 : jsizeMembers rest = 0 := by
        cases rest with
        | nil => rfl
        | cons kw rest2 =>
          obtain ⟨t, hpm⟩ := printMembers_head (by simp) hc.2
          rw [hpm] at ht
          simp at ht
      simp only [ht, jsizeMembers, List.length_append, List.length_cons]
      omega
    · simp only [if_neg ht, jsizeMembers, List.length_append, List.length_cons]
      omega
end

theorem jsizeVal_pos (v : JVal) : 1 ≤ jsizeVal v := by
  cases v <;> simp [jsizeVal]

mutual
theorem printVal_roundtrip (v : JVal) :
    ∀ fuel rest, canonVal v = true → jsizeVal v ≤ fuel → headNotDigit rest = true →
    parseVal fuel (printVal v ++ rest) = some (v, rest) := by
  intro fuel rest hc hsz hrest
  cases fuel with
  | zero =>
    have := jsizeVal_pos v
    omega
  | succ f =>
    cases v with
    | undef => simp [canonVal] at hc
    | jnull =>
      show parseVal (f + 1) ('n' :: 'u' :: 'l' :: 'l' :: rest) = _
      rw [parseVal.eq_2]
      simp [skipWs, isWsChar, List.isPrefixOf]
    | bool b =>
      cases b
      · show parseVal (f + 1) ('f' :: 'a' :: 'l' :: 's' :: 'e' :: rest) = _
        rw [parseVal.eq_2]
        simp [skipWs, isWsChar, List.isPrefixOf]
      · show parseVal (f + 1) ('t' :: 'r' :: 'u' :: 'e' :: rest) = _
        rw [parseVal.eq_2]
        simp [skipWs, isWsChar, List.isPrefixOf]
    | str s =>
      have hshape : printVal (JVal.str s) ++ rest =
          '"' :: (escStr s.data ++ '"' :: rest) := by
        simp [printVal]
      rw [hshape, parseVal.eq_2]
      simp [skipWs, isWsChar, parseStrBody_roundtrip, stringMk_data]
    | num n =>
      by_cases hneg : n < 0
      · have hshape : printVal (JVal.num n) ++ rest =
            '-' :: (natChars n.natAbs ++ rest) := by
          simp [printVal, intChars, hneg]
        have hpn := parseNum_intChars n rest hrest
        rw [intChars, if_pos hneg, List.cons_append] at hpn
        rw [hshape, parseVal.eq_2]
        simp [skipWs, isWsChar, List.isPrefixOf, hpn]
      · obtain ⟨c, t, hct⟩ := List.exists_cons_of_ne_nil (natChars_ne_nil n.toNat)
        have hdig : isDigitChar c = true := by
          apply natChars_digits n.toNat
          rw [hct]
          simp
        have hpn := parseNum_intChars n rest hrest
        rw [intChars, if_neg hneg, hct, List.cons_append] at hpn
        have hshape : printVal (JVal.num n) ++ rest = c :: (t ++ rest) := by
          simp [printVal, intChars, hneg, hct]
        rw [hshape, parseVal.eq_2]
        simp only [isDigitChar, decide_eq_true_eq] at hdig
        rcases hdig with rfl | rfl | rfl | rfl | rfl | rfl | rfl | rfl | rfl | rfl <;>
          simp [skipWs, isWsChar, List.isPrefixOf, isDigitChar, hpn]
    | arr es ps =>
      rw [canonVal, Bool.and_eq_true, List.isEmpty_iff] at hc
      obtain ⟨hps, hces⟩ := hc
      subst hps
      have hshape : printVal (JVal.arr es []) ++ rest =
          '[' :: (printElems es ++ ']' :: rest) := by
        simp [printVal]
      rw [hshape, parseVal.eq_2]
      cases es with
      | nil => simp [printElems, skipWs, isWsChar]
      | cons e es2 =>
        obtain ⟨c0, t0, hc0, hws0, hbr0, hbc0⟩ := printVal_head e
        obtain ⟨T, hpeT⟩ : ∃ T, printElems (e :: es2) = c0 :: T := by
          cases es2 with
          | nil => exact ⟨t0, by simp [printElems, hc0]⟩
          | cons w es3 =>
            exact ⟨t0 ++ ',' :: printElems (w :: es3), by simp [printElems, hc0]⟩
        have helems := printElems_roundtrip (e :: es2) f rest (by simp) hces
          (by simp only [jsizeVal] at hsz; omega)
        rw [hpeT] at helems ⊢
        rw [List.cons_append] at helems ⊢
        rw [skipWs_cons (by decide)]
        simp [skipWs_cons hws0, hbr0, helems]
    | obj fs =>
      have hshape : printVal (JVal.obj fs) ++ rest =
          '\x7b' :: (printMembers fs ++ '\x7d' :: rest) := by
        simp [printVal]
      rw [hshape, parseVal.eq_2]
      cases fs with
      | nil => simp [printMembers, skipWs, isWsChar]
      | cons kv fs2 =>
        obtain ⟨t0, hm0⟩ := printMembers_head (by simp) hc
        have hmems := printMembers_roundtrip (kv :: fs2) f rest (by simp) hc
          (by simp only [jsizeVal] at hsz; omega)
        rw [hm0] at hmems ⊢
        rw [List.cons_append] at hmems ⊢
        simp [skipWs, isWsChar, hmems]

theorem printElems_roundtrip (es : List JVal) :
    ∀ fuel rest, es ≠ [] → canonElems es = true → jsizeElems es ≤ fuel →
    parseElems fuel (printElems es ++ ']' :: rest) = some (es, rest) := by
  intro fuel rest hne hc hsz
  cases es with
  | nil => exact absurd rfl hne
  | cons v es2 =>
    rw [canonElems, Bool.and_eq_true] at hc
    cases fuel with
    | zero =>
      have := jsizeVal_pos v
      simp only [jsizeElems] at hsz
      omega
    | succ g =>
      rw [parseElems.eq_2]
      cases es2 with
      | nil =>
        have hv := printVal_roundtrip v g (']' :: rest) hc.1
          (by simp only [jsizeElems] at hsz ⊢; omega) rfl
        have hshape : printElems [v] ++ ']' :: rest = printVal v ++ ']' :: rest := by
          simp [printElems]
        rw [hshape, hv]
        simp [skipWs, isWsChar]
      | cons w es3 =>
        have hv := printVal_roundtrip v g
          (',' :: (printElems (w :: es3) ++ ']' :: rest)) hc.1
          (by simp only [jsizeElems] at hsz ⊢; omega) rfl
        have hrest2 := printElems_roundtrip (w :: es3) g rest (by simp) hc.2
          (by simp only [jsizeElems] at hsz ⊢; omega)
        have hshape : printElems (v :: w :: es3) ++ ']' :: rest =
            printVal v ++ (',' :: (printElems (w :: es3) ++ ']' :: rest)) := by
          simp [printElems]
        rw [hshape, hv]
        simp [skipWs, isWsChar, hrest2]

theorem printMembers_roundtrip (fs : List (String × JVal)) :
    ∀ fuel rest, fs ≠ [] → canonMembers fs = true → jsizeMembers fs ≤ fuel →
    parseMembers fuel (printMembers fs ++ '\x7d' :: rest) = some (fs, rest) := by
  intro fuel rest hne hc hsz
  cases fs with
  | nil => exact absurd rfl hne
  | cons kv fs2 =>
    obtain ⟨k, v⟩ := kv
    rw [canonMembers, Bool.and_eq_true] at hc
    cases fuel with
    | zero =>
      have := jsizeVal_pos v
      simp only [jsizeMembers] at hsz
      omega
    | succ g =>
      rw [parseMembers.eq_2]
      have hu := isUndef_false_of_canon hc.1
      by_cases hfs2 : printMembers fs2 = []
      · have hfs2nil : fs2 = [] := by
          cases fs2 with
          | nil => rfl
          | cons kw fs3 =>
            obtain ⟨t, hpm⟩ := printMembers_head (by simp) hc.2
            rw [hpm] at hfs2
            simp at hfs2
        subst hfs2nil
        have hshape : printMembers [(k, v)] ++ '\x7d' :: rest =
            '"' :: (escStr k.data ++ '"' :: (':' :: (printVal v ++ '\x7d' :: rest))) := by
          rw [printMembers.eq_def]
          simp [hu, printMembers]
        rw [hshape]
        have hv := printVal_roundtrip v g ('\x7d' :: rest) hc.1
          (by simp only [jsizeMembers] at hsz ⊢; omega) rfl
        simp [skipWs, isWsChar, parseStrBody_roundtrip, stringMk_data, hv]
      · have hshape : printMembers ((k, v) :: fs2) ++ '\x7d' :: rest =
            '"' :: (escStr k.data ++ '"' :: (':' :: (printVal v ++
              (',' :: (printMembers fs2 ++ '\x7d' :: rest))))) := by
          rw [printMembers.eq_def]
          simp [hu, hfs2]
        rw [hshape]
        have hv := printVal_roundtrip v g
          (',' :: (printMembers fs2 ++ '\x7d' :: rest)) hc.1
          (by simp only [jsizeMembers] at hsz ⊢; omega) rfl
        have hfs2ne : fs2 ≠ [] := by
          intro hcon
          subst hcon
          exact hfs2 rfl
        have hrest2 := printMembers_roundtrip fs2 g rest hfs2ne hc.2
          (by simp only [jsizeMembers] at hsz ⊢; omega)
        simp [skipWs, isWsChar, parseStrBody_roundtrip, stringMk_data, hv, hrest2]
end

/-- Parsing the compact serialization of a JSON-representable value
recovers the value exactly. -/
theorem jsonParse_stringify (v : JVal) (hc : canonVal v = true) :
    jsonParse (stringify v) = some v := by
  have hrt := printVal_roundtrip v ((printVal v).length + 1) [] hc
    (Nat.le_succ_of_le (jsize_le_plen_val v hc)) rfl
  rw [List.append_nil] at hrt
  unfold jsonParse stringify
  have hdata : (String.mk (printVal v)).data = printVal v := rfl
  have hlen : (String.mk (printVal v)).length = (printVal v).length := rfl
  rw [hlen, hdata, hrt]
  rfl

/-- C7: saving a history of JSON-representable records to the storage
blob and loading it back with no intervening mutation yields exactly
the original sequence filtered entry-wise by the load-time validity
check (`item && item.detection && typeof item.detection === 'object'
&& Array.isArray(item.detection.signals)`). -/
theorem history_save_load_roundtrip (h : List JVal)
    (hc : ∀ v ∈ h, canonVal v = true) :
    loadHistory (some (saveHistory h)) = h.filter validEntry := by
  have hcanon : canonVal (.arr h []) = true := by
    rw [canonVal]
    simp [List.isEmpty, canonElems_of_forall hc]
  have hne : saveHistory h ≠ "" := by
    intro heq
    have hd := congrArg String.data heq
    simp [saveHistory, stringify, printVal] at hd
  simp only [loadHistory]
  rw [if_neg hne]
  unfold saveHistory
  rw [jsonParse_stringify _ hcanon]

/-- A two-entry history: a well-formed scan record and a malformed
entry with no `detection` key. -/
def histSample : List JVal :=
  [JVal.obj [("detection", JVal.obj [("signals", JVal.arr [JVal.str "sig"] [])])],
   JVal.obj [("note", JVal.str "n")]]

theorem history_save_load_roundtrip_witness :
    (∀ v ∈ histSample, canonVal v = true) ∧
      loadHistory (some (saveHistory histSample)) = histSample.filter validEntry :=
  ⟨by decide, history_save_load_roundtrip histSample (by decide)⟩
